/-
  Formal model of the VisionTags core (credit ledger, job/item state machine,
  analysis queue worker, sync coordinator), shallowly embedded from the
  TypeScript sources:

  - billing service with overage support          (PLANS, getShopBilling,
    hasAvailableCredits, useCredits)
  - billing service without overage support       (app/services/billing.server.ts:
    hasAvailableCredits : Bool, useCredits)
  - queue service                                 (app/services/queue.server.ts:
    sanitizeJobId, queueProductAnalysis, startAnalysisWorker handler)
  - vision service                                (vision.server.ts:
    analyzeProductImage, isVisionError)
  - job detail route sync action                  (app/routes/app.jobs.$id.tsx)
  - dashboard start-scan action                   (app/routes/app._index.tsx)

  Monetary amounts (overage price / cap) are JavaScript numbers in the source;
  they are modelled as exact rationals, which agrees with IEEE double
  evaluation on every branch point exercised here.  Database rows are modelled
  as explicit state records, one prisma call = one state update.
-/
import Mathlib

set_option linter.unusedVariables false

/-! ## Billing service, overage-enabled variant -/

/-- Plan tier identifier (`PlanType = keyof typeof PLANS`). -/
inductive PlanType
  | FREE
  | PRO
  deriving DecidableEq, Repr

/-- One entry of the `PLANS` configuration object.  `overageCap` is `none` for
the FREE plan, which has no `overageCap` key (the source reads it with an
`'overageCap' in planConfig` guard defaulting to 0). -/
structure PlanConfig where
  name : String
  credits : Nat
  price : Rat
  overageEnabled : Bool
  overagePrice : Rat
  overageCap : Option Rat
  deriving DecidableEq, Repr

/-- `PLANS.FREE`. -/
def PLANS_FREE : PlanConfig :=
  { name := "Free", credits := 50, price := 0,
    overageEnabled := false, overagePrice := 0, overageCap := none }

/-- `PLANS.PRO` ($0.01 per scan after limit, max $50 overage per cycle). -/
def PLANS_PRO : PlanConfig :=
  { name := "Pro", credits := 2000, price := 19,
    overageEnabled := true, overagePrice := 1/100, overageCap := some 50 }

/-- `PLANS[plan]`. -/
def PLANS : PlanType → PlanConfig
  | .FREE => PLANS_FREE
  | .PRO => PLANS_PRO

/-- The per-shop `shopSettings` row (fields used by the credit ledger). -/
structure ShopSettings where
  plan : PlanType
  creditsUsed : Int
  creditLimit : Int
  deriving DecidableEq, Repr

/-- The fields of the `ShopBilling` view used by admission decisions. -/
structure ShopBilling where
  plan : PlanType
  creditsUsed : Int
  creditLimit : Int
  creditsRemaining : Int
  overageScans : Int
  overageCharge : Rat
  overageEnabled : Bool
  overageCap : Rat
  deriving DecidableEq, Repr

/-- `getShopBilling` (overage-enabled variant): computes the billing view from
the settings row. -/
def getShopBilling (s : ShopSettings) : ShopBilling :=
  let planConfig := PLANS s.plan
  let overageScans : Int := max 0 (s.creditsUsed - s.creditLimit)
  let overagePrice := planConfig.overagePrice
  let overageCap := planConfig.overageCap.getD 0
  let overageCharge := min ((overageScans : Rat) * overagePrice) overageCap
  { plan := s.plan
    creditsUsed := min s.creditsUsed s.creditLimit
    creditLimit := s.creditLimit
    creditsRemaining := max 0 (s.creditLimit - s.creditsUsed)
    overageScans := overageScans
    overageCharge := overageCharge
    overageEnabled := planConfig.overageEnabled
    overageCap := overageCap }

/-- Result of the overage-aware `hasAvailableCredits`. -/
structure AvailabilityResult where
  allowed : Bool
  useOverage : Bool
  overageCount : Int
  deriving DecidableEq, Repr

/-- `hasAvailableCredits` (overage-enabled variant): admission check.  Note
that the source reads `PLANS.PRO.overagePrice` directly in the overage branch,
not the current plan's price. -/
def hasAvailableCredits (s : ShopSettings) (required : Int) : AvailabilityResult :=
  let billing := getShopBilling s
  if billing.creditsRemaining ≥ required then
    { allowed := true, useOverage := false, overageCount := 0 }
  else if billing.overageEnabled then
    let remainingOverageBudget := billing.overageCap - billing.overageCharge
    let overagePrice := PLANS_PRO.overagePrice
    let maxOverageScans : Int := ⌊remainingOverageBudget / overagePrice⌋
    let overageNeeded := required - billing.creditsRemaining
    if overageNeeded ≤ maxOverageScans then
      { allowed := true, useOverage := true, overageCount := overageNeeded }
    else
      { allowed := false, useOverage := false, overageCount := 0 }
  else
    { allowed := false, useOverage := false, overageCount := 0 }

/-- Result record of the overage-aware `useCredits`. -/
structure UseCreditsResult where
  success : Bool
  remaining : Int
  overageUsed : Int
  deriving DecidableEq, Repr

/-- `useCredits` (overage-enabled variant): consumes `count` units, allowing
the PRO plan to exceed `creditLimit` as long as the new overage charge
`(newTotal - creditLimit) * overagePrice` does not exceed the overage cap.
Returns the result record and the updated settings row (unchanged on
failure).  The source's nested `if (wouldExceedLimit && overageEnabled)
{ if (newOverageCharge > overageCap) ... }` rejection is written here as one
guard. -/
def useCredits (s : ShopSettings) (count : Int) : UseCreditsResult × ShopSettings :=
  let planConfig := PLANS s.plan
  let newTotal := s.creditsUsed + count
  if newTotal > s.creditLimit ∧ planConfig.overageEnabled = false then
    ({ success := false, remaining := s.creditLimit - s.creditsUsed, overageUsed := 0 }, s)
  else if newTotal > s.creditLimit ∧ planConfig.overageEnabled = true ∧
      ((newTotal - s.creditLimit : Int) : Rat) * planConfig.overagePrice >
        planConfig.overageCap.getD 0 then
    ({ success := false, remaining := 0,
       overageUsed := max 0 (s.creditsUsed - s.creditLimit) }, s)
  else
    let updated : ShopSettings := { s with creditsUsed := newTotal }
    ({ success := true
       remaining := max 0 (updated.creditLimit - updated.creditsUsed)
       overageUsed := max 0 (updated.creditsUsed - updated.creditLimit) }, updated)

/-- Apply a sequence of `useCredits` calls, threading the settings row. -/
def runUseCredits (s : ShopSettings) (counts : List Int) : ShopSettings :=
  counts.foldl (fun st c => (useCredits st c).2) s

/-! ## Billing service, basic variant (`app/services/billing.server.ts`) -/

/-- The settings fields used by the basic (no-overage) billing service. -/
structure BasicSettings where
  creditsUsed : Int
  creditLimit : Int
  deriving DecidableEq, Repr

/-- Basic `hasAvailableCredits`: `billing.creditsRemaining >= required` where
`creditsRemaining = creditLimit - creditsUsed`. -/
def hasAvailableCreditsBasic (s : BasicSettings) (required : Int) : Bool :=
  s.creditLimit - s.creditsUsed ≥ required

/-- Basic `useCredits`: rejects any consumption that would push `creditsUsed`
over `creditLimit`; otherwise commits the increment. -/
def useCreditsBasic (s : BasicSettings) (count : Int) :
    (Bool × Int) × BasicSettings :=
  if s.creditsUsed + count > s.creditLimit then
    ((false, s.creditLimit - s.creditsUsed), s)
  else
    let updated : BasicSettings := { s with creditsUsed := s.creditsUsed + count }
    ((true, updated.creditLimit - updated.creditsUsed), updated)

/-- Apply a sequence of basic `useCredits` calls. -/
def runUseCreditsBasic (s : BasicSettings) (counts : List Int) : BasicSettings :=
  counts.foldl (fun st c => (useCreditsBasic st c).2) s

/-- The largest number of overage units a plan can ever hold:
`floor(overageCapAmount / overagePricePerUnit)`. -/
def maxOverageUnits (cfg : PlanConfig) : Int :=
  ⌊cfg.overageCap.getD 0 / cfg.overagePrice⌋

/-- The credit bound of the specification: `creditsUsed` is at most
`creditLimit` plus (when the plan has overage enabled) the capped number of
overage units. -/
def CreditBound (s : ShopSettings) : Prop :=
  if (PLANS s.plan).overageEnabled then
    s.creditsUsed ≤ s.creditLimit + maxOverageUnits (PLANS s.plan)
  else
    s.creditsUsed ≤ s.creditLimit

theorem maxOverageUnits_PRO : maxOverageUnits (PLANS PlanType.PRO) = 5000 := by
  simp only [maxOverageUnits, PLANS, PLANS_PRO]
  norm_num

/-- The updated settings row of `useCredits` is either unchanged (a rejected
call) or the committed increment, and a commit that exceeds the limit only
happens when overage is enabled and the new overage charge is within cap. -/
theorem useCredits_snd_cases (s : ShopSettings) (c : Int) :
    (useCredits s c).2 = s ∨
    ((useCredits s c).2 = { s with creditsUsed := s.creditsUsed + c } ∧
      (s.creditsUsed + c ≤ s.creditLimit ∨
        ((PLANS s.plan).overageEnabled = true ∧
          ((s.creditsUsed + c - s.creditLimit : Int) : Rat) * (PLANS s.plan).overagePrice ≤
            (PLANS s.plan).overageCap.getD 0))) := by
  simp only [useCredits]
  split_ifs with h1 h2
  · exact Or.inl rfl
  · exact Or.inl rfl
  · refine Or.inr ⟨rfl, ?_⟩
    by_cases hexc : s.creditsUsed + c > s.creditLimit
    · have hen : (PLANS s.plan).overageEnabled = true := by
        rcases Bool.eq_false_or_eq_true (PLANS s.plan).overageEnabled with ht | hf
        · exact ht
        · exact absurd ⟨hexc, hf⟩ h1
      refine Or.inr ⟨hen, ?_⟩
      by_cases hch : ((s.creditsUsed + c - s.creditLimit : Int) : Rat) *
          (PLANS s.plan).overagePrice > (PLANS s.plan).overageCap.getD 0
      · exact absurd ⟨hexc, hen, hch⟩ h2
      · exact le_of_not_lt hch
    · exact Or.inl (le_of_not_lt hexc)

/-- One `useCredits` call preserves the credit bound. -/
theorem useCredits_preserves_bound (s : ShopSettings) (c : Int)
    (h : CreditBound s) : CreditBound (useCredits s c).2 := by
  rcases useCredits_snd_cases s c with heq | ⟨heq, hcase⟩
  · rw [heq]; exact h
  · rw [heq]
    cases hp : s.plan with
    | FREE =>
      rw [hp] at hcase
      unfold CreditBound
      simp [hp, PLANS, PLANS_FREE] at hcase ⊢
      omega
    | PRO =>
      rw [hp] at hcase
      unfold CreditBound
      dsimp only
      rw [maxOverageUnits_PRO]
      simp only [PLANS, PLANS_PRO, if_true]
      rcases hcase with hle | ⟨_, hch⟩
      · omega
      · have hch2 : ((s.creditsUsed + c - s.creditLimit : Int) : Rat) * (1/100) ≤ 50 := by
          simpa [PLANS, PLANS_PRO] using hch
        have hle5000 : ((s.creditsUsed + c - s.creditLimit : Int) : Rat) ≤ 5000 := by
          nlinarith
        have hZ : s.creditsUsed + c - s.creditLimit ≤ (5000 : Int) := by
          exact_mod_cast hle5000
        omega

/-- A failing `useCredits` call leaves the settings row unchanged. -/
theorem useCredits_fail_frame (s : ShopSettings) (c : Int)
    (h : (useCredits s c).1.success = false) : (useCredits s c).2 = s := by
  simp only [useCredits] at h ⊢
  split_ifs at h ⊢ with h1 h2
  · rfl
  · rfl

/-- One basic `useCredits` call preserves `creditsUsed ≤ creditLimit`. -/
theorem useCreditsBasic_preserves_bound (s : BasicSettings) (c : Int)
    (h : s.creditsUsed ≤ s.creditLimit) :
    (useCreditsBasic s c).2.creditsUsed ≤ (useCreditsBasic s c).2.creditLimit := by
  simp only [useCreditsBasic]
  split_ifs with hexc
  · exact h
  · simp only [BasicSettings.creditsUsed, BasicSettings.creditLimit]
    omega

/-- A failing basic `useCredits` call leaves the settings row unchanged. -/
theorem useCreditsBasic_fail_frame (s : BasicSettings) (c : Int)
    (h : (useCreditsBasic s c).1.1 = false) : (useCreditsBasic s c).2 = s := by
  simp only [useCreditsBasic] at h ⊢
  split_ifs at h ⊢ with hexc
  rfl

/-- C1: for every tenant and every sequence of `useCredits` calls, starting
from any settings row within the credit bound, `creditsUsed` never exceeds
`creditLimit + floor(overageCapAmount / overagePricePerUnit)` when the plan
has overage enabled and never exceeds `creditLimit` otherwise; moreover (in
both service variants) a `useCredits` call that reports failure leaves the
settings row unchanged. -/
theorem useCredits_credit_bound_invariant (s : ShopSettings) (counts : List Int)
    (h : CreditBound s)
    (t : BasicSettings) (counts' : List Int)
    (h' : t.creditsUsed ≤ t.creditLimit) :
    CreditBound (runUseCredits s counts) ∧
    (runUseCreditsBasic t counts').creditsUsed ≤
      (runUseCreditsBasic t counts').creditLimit ∧
    (∀ (u : ShopSettings) (c : Int),
      (useCredits u c).1.success = false → (useCredits u c).2 = u) ∧
    (∀ (u : BasicSettings) (c : Int),
      (useCreditsBasic u c).1.1 = false → (useCreditsBasic u c).2 = u) := by
  refine ⟨?_, ?_, useCredits_fail_frame, useCreditsBasic_fail_frame⟩
  · unfold runUseCredits
    induction counts generalizing s with
    | nil => exact h
    | cons c rest ih =>
      exact ih _ (useCredits_preserves_bound s c h)
  · unfold runUseCreditsBasic
    induction counts' generalizing t with
    | nil => exact h'
    | cons c rest ih =>
      exact ih _ (useCreditsBasic_preserves_bound t c h')

/-- Witness for C1 at a concrete tenant: a PRO tenant consuming
`[1500, 600, 4000, 5000]` units and a basic tenant consuming `[30, 30, 15]`
units stay within their bounds. -/
theorem useCredits_credit_bound_invariant_witness :
    CreditBound (runUseCredits ⟨PlanType.PRO, 0, 2000⟩ [1500, 600, 4000, 5000]) ∧
    (runUseCreditsBasic ⟨0, 50⟩ [30, 30, 15]).creditsUsed ≤
      (runUseCreditsBasic ⟨0, 50⟩ [30, 30, 15]).creditLimit ∧
    (∀ (u : ShopSettings) (c : Int),
      (useCredits u c).1.success = false → (useCredits u c).2 = u) ∧
    (∀ (u : BasicSettings) (c : Int),
      (useCreditsBasic u c).1.1 = false → (useCreditsBasic u c).2 = u) :=
  useCredits_credit_bound_invariant ⟨PlanType.PRO, 0, 2000⟩ _
    (by simp only [CreditBound, maxOverageUnits_PRO]
        norm_num [PLANS, PLANS_PRO])
    ⟨0, 50⟩ _ (by norm_num)

/-- C6: a PRO tenant with `creditLimit = 2000`, `creditsUsed = 1990`
(overage $0.01/unit capped at $50) asking for 20 units is admitted with 10
overage units, and the subsequent `useCredits` succeeds and commits
`creditsUsed = 2010`. -/
theorem pro_overage_admission_scenario :
    hasAvailableCredits ⟨PlanType.PRO, 1990, 2000⟩ 20 =
      { allowed := true, useOverage := true, overageCount := 10 } ∧
    (useCredits ⟨PlanType.PRO, 1990, 2000⟩ 20).1.success = true ∧
    (useCredits ⟨PlanType.PRO, 1990, 2000⟩ 20).2.creditsUsed = 2010 := by
  refine ⟨?_, ?_, ?_⟩
  · simp only [hasAvailableCredits, getShopBilling, PLANS, PLANS_PRO]
    norm_num
  · simp only [useCredits, PLANS, PLANS_PRO]
    norm_num
  · simp only [useCredits, PLANS, PLANS_PRO]
    norm_num

/-! ## Queue service: task-ID sanitization (`sanitizeJobId`) -/

/-- The character-level action of `id.replace(/[:\x2f]/g, "_")`: colons and
slashes become underscores, all other characters are kept. -/
def sanitizeChar (c : Char) : Char :=
  if c = ':' ∨ c = '/' then '_' else c

/-- `sanitizeJobId`: replace every colon and slash in the ID with an
underscore (BullMQ task IDs must not contain colons). -/
def sanitizeJobId (s : String) : String :=
  String.mk (s.data.map sanitizeChar)

/-- `queueProductAnalysis` / `queueBulkAnalysis` task identifier:
`` `${jobId}-${sanitizedProductId}` ``. -/
def taskIdFor (jobId productId : String) : String :=
  jobId ++ "-" ++ sanitizeJobId productId

/-- A character acceptable in a BullMQ task ID as far as `sanitizeJobId` is
concerned: not a colon and not a slash. -/
def queueSafeChar (c : Char) : Prop :=
  c ≠ ':' ∧ c ≠ '/'

instance (c : Char) : Decidable (queueSafeChar c) := by
  unfold queueSafeChar
  exact inferInstance

theorem sanitizeChar_safe (c : Char) : queueSafeChar (sanitizeChar c) := by
  unfold sanitizeChar queueSafeChar
  split_ifs with h
  · exact ⟨by decide, by decide⟩
  · push_neg at h
    exact h

theorem sanitizeChar_of_safe (c : Char) (h : queueSafeChar c) :
    sanitizeChar c = c := by
  unfold sanitizeChar
  rcases h with ⟨h1, h2⟩
  simp [h1, h2]

/-- C9: sanitized task identifiers contain no queue-unsafe character
(`:` or `/`), and two distinct identifiers that differ only at positions
holding safe characters on both sides have distinct sanitized forms. -/
theorem sanitizeJobId_safe_and_collision_free (s t : String)
    (hne : s ≠ t)
    (hdiff : ∀ (i : Fin s.data.length) (hi : (i : Nat) < t.data.length),
      s.data.get i ≠ t.data.get ⟨i, hi⟩ →
      queueSafeChar (s.data.get i) ∧ queueSafeChar (t.data.get ⟨i, hi⟩)) :
    (∀ c ∈ (sanitizeJobId s).data, queueSafeChar c) ∧
    sanitizeJobId s ≠ sanitizeJobId t := by
  constructor
  · intro c hc
    simp only [sanitizeJobId, String.mk] at hc
    rcases List.mem_map.mp hc with ⟨a, _, rfl⟩
    exact sanitizeChar_safe a
  · intro heq
    have hdata : s.data.map sanitizeChar = t.data.map sanitizeChar := by
      have := congrArg String.data heq
      simpa [sanitizeJobId] using this
    have hlen : s.data.length = t.data.length := by
      have := congrArg List.length hdata
      simpa using this
    have hsdata : s.data ≠ t.data := fun h => hne (by
      cases s; cases t; simp_all)
    rw [Ne, List.ext_get_iff] at hsdata
    push_neg at hsdata
    rcases hsdata hlen with ⟨i, hi1, hi2, hgetne⟩
    · have hsafe := hdiff ⟨i, hi1⟩ hi2 hgetne
      have hmap := (List.ext_get_iff.mp hdata).2 i (by simpa using hi1) (by simpa using hi2)
      rw [List.get_map, List.get_map] at hmap
      rw [sanitizeChar_of_safe _ hsafe.1, sanitizeChar_of_safe _ hsafe.2] at hmap
      exact hgetne hmap

/-- Witness for C9: the Shopify GID shape `gid://shopify/Product/1` sanitizes
with no unsafe characters, and the pair `gid://shopify/Product/1` vs
`gid://shopify/Product/2` (differing only in a safe character) keeps distinct
task IDs. -/
theorem sanitizeJobId_safe_and_collision_free_witness :
    (∀ c ∈ (sanitizeJobId "gid://shopify/Product/1").data, queueSafeChar c) ∧
    sanitizeJobId "gid://shopify/Product/1" ≠ sanitizeJobId "gid://shopify/Product/2" :=
  sanitizeJobId_safe_and_collision_free "gid://shopify/Product/1"
    "gid://shopify/Product/2" (by decide) (by decide)

/-! ## Vision service (`analyzeProductImage`) and the analysis worker

The call to the vision SDK together with the JSON handling of its response is
abstracted as an `ApiOutcome`: the SDK promise either rejects (timeouts,
connection errors, HTTP error statuses — all caught by the surrounding
`try/catch`) or resolves to a response whose text content parses (or fails to
parse) as the expected structure. -/

/-- Error codes of `VisionError`. -/
inductive VisionErrorCode
  | FLAGGED_CONTENT
  | INVALID_IMAGE
  | API_ERROR
  | PARSE_ERROR
  deriving DecidableEq, Repr

/-- `VisionResponse = VisionResult | VisionError`. -/
inductive VisionResponse
  | result (metafields : List (String × String)) (tags : List String)
  | error (message : String) (code : VisionErrorCode)
  deriving DecidableEq, Repr

/-- Abstract outcome of one underlying vision API call. -/
inductive ApiOutcome
  /-- The SDK promise rejected (timeout, network failure, HTTP error). -/
  | thrown (message : String)
  /-- The response resolved but carried no text block. -/
  | noText
  /-- The response text did not parse as JSON. -/
  | unparseable (parseError : String)
  /-- The response parsed but a required section was missing. -/
  | missingSection
  /-- The response parsed into metafields and tags. -/
  | parsed (metafields : List (String × String)) (tags : List String)
  deriving DecidableEq, Repr

/-- `analyzeProductImage`: every failure of the underlying call is caught and
returned as a `VisionError` value — the function itself never throws.  In
particular a thrown SDK error (such as a timeout) becomes an `API_ERROR`
value. -/
def analyzeProductImage : ApiOutcome → VisionResponse
  | .thrown msg => .error msg .API_ERROR
  | .noText => .error "No text response from Claude" .API_ERROR
  | .unparseable pe => .error ("Failed to parse JSON: " ++ pe) .PARSE_ERROR
  | .missingSection => .error "Invalid response structure" .PARSE_ERROR
  | .parsed metafields tags => .result metafields tags

/-- `isVisionError`. -/
def isVisionError : VisionResponse → Bool
  | .result _ _ => false
  | .error _ _ => true

/-! ### One dispatch attempt of the analysis worker, and the queue retry loop

`startAnalysisWorker`'s handler runs inside a `try/catch`:  the analysis
result is persisted on the Item, job progress is rolled up, and any error
thrown by a persistence call is caught, the Item is stamped ERROR, and the
error is re-thrown so that BullMQ retries the task (up to
`defaultJobOptions.attempts = 3` with exponential backoff). -/

/-- `status` values of the Product (Item) rows. -/
inductive ItemStatus
  | PENDING
  | ANALYZED
  | ERROR
  | SYNCED
  deriving DecidableEq, Repr

/-- Queue configuration: `defaultJobOptions.attempts`. -/
def queueMaxAttempts : Nat := 3

/-- Queue configuration: `defaultJobOptions.backoff.delay` (milliseconds,
exponential). -/
def queueBackoffDelayMs : Nat := 5000

/-- Failure-injection environment for one dispatch attempt: the outcome of
the vision API call, and whether each persistence call of the handler throws
on this attempt. -/
structure AttemptEnv where
  api : ApiOutcome
  itemUpdateThrows : Bool
  rollupThrows : Bool
  deriving DecidableEq, Repr

/-- One dispatch attempt of the worker handler, restricted to the Item status
it persists.  Returns `(completed?, status written)`: `(.error msg, st)` means
the handler threw (after its catch block stamped the Item ERROR) and the
queue will count a failed attempt; `(.ok (), st)` means the task completed. -/
def runAttempt (env : AttemptEnv) : Except String Unit × ItemStatus :=
  let res := analyzeProductImage env.api
  if env.itemUpdateThrows then
    (.error "db error", .ERROR)
  else
    let written : ItemStatus := if isVisionError res then .ERROR else .ANALYZED
    if env.rollupThrows then
      (.error "db error", .ERROR)
    else
      (.ok (), written)

/-- The queue's dispatch loop: attempt the task, and while the handler
throws and attempts remain, redispatch.  Returns the number of dispatch
attempts observed and the final Item status.  `envs n` is the environment of
the `n`-th attempt (0-based). -/
def runTaskGo (envs : Nat → AttemptEnv) : Nat → Nat → ItemStatus → Nat × ItemStatus
  | 0, used, st => (used, st)
  | remaining + 1, used, st =>
    match runAttempt (envs used) with
    | (.ok _, st') => (used + 1, st')
    | (.error _, st') =>
      if remaining = 0 then (used + 1, st')
      else runTaskGo envs remaining (used + 1) st'

/-- Run one queued analysis task under the queue's retry policy. -/
def runTask (envs : Nat → AttemptEnv) (maxAttempts : Nat) (st : ItemStatus) :
    Nat × ItemStatus :=
  runTaskGo envs maxAttempts 0 st

/-- The attempt environments of claim C4's scenario: the vision call times
out on the first two attempts and succeeds on the third; persistence never
fails. -/
def timeoutTwiceEnvs : Nat → AttemptEnv := fun n =>
  { api := if n < 2 then .thrown "Request timed out" else .parsed [("color", "Navy Blue")] ["Navy Blue"]
    itemUpdateThrows := false
    rollupThrows := false }

/-- Attempt environments in which the job-progress rollup write throws on the
first two attempts and the third attempt runs clean. -/
def rollupFailTwiceEnvs : Nat → AttemptEnv := fun n =>
  { api := .parsed [("color", "Navy Blue")] ["Navy Blue"]
    itemUpdateThrows := false
    rollupThrows := n < 2 }

/-- C4 counterexample: with the Analyzer timing out on the first two dispatch
attempts and succeeding on the third, the task is NOT retried — the timeout
is converted into an `API_ERROR` value by `analyzeProductImage`, the handler
completes on the first attempt, only 1 dispatch attempt is observed, and the
Item ends ERROR rather than ANALYZED. -/
theorem analyzer_timeout_retry_counterexample :
    runTask timeoutTwiceEnvs queueMaxAttempts .PENDING = (1, .ERROR) ∧
    ¬ (runTask timeoutTwiceEnvs queueMaxAttempts .PENDING = (3, .ANALYZED)) := by
  constructor
  · rfl
  · intro h
    simp [runTask, runTaskGo, runAttempt, timeoutTwiceEnvs, queueMaxAttempts,
      analyzeProductImage, isVisionError] at h

/-- C4 amended: a timed-out Analyzer call is caught inside
`analyzeProductImage` and returned as an `API_ERROR` value instead of being
thrown, so the queue does not retry it: exactly 1 dispatch attempt is
observed and the Item ends ERROR.  The retry policy (3 attempts) applies only
to errors thrown inside the worker handler, e.g. a failing persistence call:
with the rollup write failing twice and succeeding on the third attempt,
exactly 3 dispatch attempts are observed and the Item ends ANALYZED. -/
theorem analyzer_timeout_not_retried :
    runTask timeoutTwiceEnvs queueMaxAttempts .PENDING = (1, .ERROR) ∧
    runTask rollupFailTwiceEnvs queueMaxAttempts .PENDING = (3, .ANALYZED) := by
  exact ⟨rfl, rfl⟩

/-! ## Job / Item data model and the analysis trace

One Job with its Product (Item) rows; worker settlements and sync calls are
the events that mutate them.  Each event is one handler execution; the
handler's persistence calls are taken to succeed (failure injection for the
worker lives in `runTask` above). -/

/-- `status` values of Job rows. -/
inductive JobStatus
  | QUEUED
  | PROCESSING
  | COMPLETED
  | FAILED
  deriving DecidableEq, Repr

/-- One Product (Item) row. -/
structure Product where
  id : String
  jobId : String
  title : String
  imageUrl : String
  currentCategory : Option String
  currentTags : String
  status : ItemStatus
  suggestedMetafields : Option (List (String × String))
  suggestedTags : Option (List String)
  syncedAt : Option Nat
  error : Option String
  deriving DecidableEq, Repr

/-- The Job row fields the worker's rollup reads and writes. -/
structure JobRec where
  status : JobStatus
  totalItems : Nat
  processed : Nat
  deriving DecidableEq, Repr

/-- One Job and its Item rows. -/
structure SysState where
  job : JobRec
  items : List Product
  deriving DecidableEq, Repr

/-- `prisma.product.update({ where: { id: pid }, data: f })`: the row id is a
unique key, so this rewrites the row(s) whose `id` equals `pid`. -/
def updateProduct (pid : String) (f : Product → Product) (items : List Product) :
    List Product :=
  items.map fun p => if p.id == pid then f p else p

/-- Persist an analysis outcome on an Item row: a `VisionError` stamps ERROR
with the message, a result stamps ANALYZED with the suggestions.  The write
does not inspect the row's current status. -/
def applyVision (res : VisionResponse) (p : Product) : Product :=
  match res with
  | .error msg _ => { p with status := .ERROR, error := some msg }
  | .result metafields tags =>
      { p with status := .ANALYZED,
               suggestedMetafields := some metafields,
               suggestedTags := some tags }

/-- `products.filter((p) => p.status !== "PENDING").length`. -/
def processedCount (items : List Product) : Nat :=
  (items.filter fun p => p.status != ItemStatus.PENDING).length

/-- One completed execution of the analysis worker handler for the task of
product `pid`: persist the analysis outcome, then roll up job progress
(`processed` recomputed from the rows, `status` COMPLETED when
`processed >= totalItems`, else PROCESSING). -/
def workerSettle (st : SysState) (pid : String) (res : VisionResponse) : SysState :=
  let items := updateProduct pid (applyVision res) st.items
  let processed := processedCount items
  { job := { st.job with
      processed := processed
      status := if processed ≥ st.job.totalItems then .COMPLETED else .PROCESSING }
    items := items }

/-! ### The sync action of the job detail route -/

/-- Result shape of `updateProductMetafields` / `updateProductTags`:
`{ success: boolean; error?: string }`. -/
structure WriteResult where
  success : Bool
  error : Option String
  deriving DecidableEq, Repr

/-- The two field groups a sync request can select. -/
inductive FieldGroup
  | metafields
  | tags
  deriving DecidableEq, Repr

/-- Accumulator of the sync loop: counters, collected error messages, the
audit log of external write calls performed, and the Item rows. -/
structure SyncAcc where
  synced : Nat
  errors : Nat
  errorMessages : List String
  writeCalls : List (String × FieldGroup)
  items : List Product
  deriving DecidableEq, Repr

/-- The body of the sync loop for one selected product ID.  `metaW`/`tagW`
give the outcome of the external catalog write for each product (the write is
performed only when the group is selected and the stored suggestion is
non-null). -/
def syncOne (metaW tagW : String → WriteResult) (syncMetafields syncTags : Bool)
    (now : Nat) (acc : SyncAcc) (pid : String) : SyncAcc :=
  match acc.items.find? (fun p => p.id == pid) with
  | none => acc
  | some p =>
    if p.status ≠ ItemStatus.ANALYZED then acc
    else
      let metaRun := syncMetafields && p.suggestedMetafields.isSome
      let tagRun := syncTags && p.suggestedTags.isSome
      let metaRes := if metaRun then metaW pid else { success := true, error := none }
      let tagRes := if tagRun then tagW pid else { success := true, error := none }
      let calls := acc.writeCalls ++
        (if metaRun then [(pid, FieldGroup.metafields)] else []) ++
        (if tagRun then [(pid, FieldGroup.tags)] else [])
      if metaRes.success && tagRes.success then
        { acc with
            synced := acc.synced + 1
            writeCalls := calls
            items := updateProduct pid
              (fun q => { q with status := .SYNCED, syncedAt := some now }) acc.items }
      else
        let errMsg := String.intercalate "; " ([metaRes.error, tagRes.error].filterMap id)
        { acc with
            errors := acc.errors + 1
            errorMessages := acc.errorMessages ++ [p.title ++ ": " ++ errMsg]
            writeCalls := calls
            items := updateProduct pid (fun q => { q with error := some errMsg }) acc.items }

/-- The sync loop over the selected product IDs. -/
def syncLoop (metaW tagW : String → WriteResult) (syncMetafields syncTags : Bool)
    (now : Nat) : List String → SyncAcc → SyncAcc
  | [], acc => acc
  | pid :: rest, acc =>
      syncLoop metaW tagW syncMetafields syncTags now rest
        (syncOne metaW tagW syncMetafields syncTags now acc pid)

/-- Result of the sync action. -/
structure SyncResult where
  success : Bool
  synced : Nat
  errors : Nat
  errorDetails : List String
  deriving DecidableEq, Repr

/-- The `action === "sync"` handler: reject an empty selection, otherwise
process every selected product independently and report the tallies.
Returns the result, the updated Item rows, and the audit log of external
writes. -/
def syncSelectedProducts (metaW tagW : String → WriteResult) (productIds : List String)
    (syncMetafields syncTags : Bool) (now : Nat) (items : List Product) :
    SyncResult × List Product × List (String × FieldGroup) :=
  if productIds.isEmpty then
    ({ success := false, synced := 0, errors := 0, errorDetails := [] }, items, [])
  else
    let acc := syncLoop metaW tagW syncMetafields syncTags now productIds
      { synced := 0, errors := 0, errorMessages := [], writeCalls := [], items := items }
    ({ success := true, synced := acc.synced, errors := acc.errors,
       errorDetails := acc.errorMessages }, acc.items, acc.writeCalls)

/-! ### Event traces -/

/-- An event of the job lifecycle: one worker settlement (the task for `pid`
completing with analyzer response `res`), or one sync action. -/
inductive Event
  | worker (pid : String) (res : VisionResponse)
  | sync (productIds : List String) (syncMetafields syncTags : Bool)
      (metaW tagW : String → WriteResult) (now : Nat)

/-- Apply one event to the job state. -/
def stepEvent (st : SysState) : Event → SysState
  | .worker pid res => workerSettle st pid res
  | .sync ids sm stg metaW tagW now =>
      { st with items := (syncSelectedProducts metaW tagW ids sm stg now st.items).2.1 }

/-- Run a sequence of events. -/
def runEvents (st : SysState) (events : List Event) : SysState :=
  events.foldl stepEvent st

/-- The state persisted by a freshly created scan job: Job QUEUED with
`totalItems` = number of rows, `processed = 0`, every Item PENDING. -/
def initState (items : List Product) : SysState :=
  { job := { status := .QUEUED, totalItems := items.length, processed := 0 }
    items := items }

/-- The product IDs consumed by the worker events of a trace. -/
def workerPid : Event → Option String
  | .worker pid _ => some pid
  | .sync _ _ _ _ _ _ => none

/-- All worker-event product IDs of a trace, in order. -/
def workerPids (events : List Event) : List String :=
  events.filterMap workerPid

/-! ### Row-level update lemmas -/

theorem updateProduct_length (pid : String) (f : Product → Product)
    (items : List Product) : (updateProduct pid f items).length = items.length := by
  simp [updateProduct]

theorem updateProduct_get (pid : String) (f : Product → Product)
    (items : List Product) (i : Nat) (h1 : i < items.length)
    (h2 : i < (updateProduct pid f items).length) :
    (updateProduct pid f items).get ⟨i, h2⟩ =
      if (items.get ⟨i, h1⟩).id == pid then f (items.get ⟨i, h1⟩)
      else items.get ⟨i, h1⟩ := by
  simp [updateProduct, List.get_map]

/-- The item rows of `syncOne` are either untouched, or one id's rows are
stamped SYNCED (only when the row found for that id is ANALYZED), or one id's
rows get an error note. -/
theorem syncOne_items_cases (metaW tagW : String → WriteResult)
    (sm stg : Bool) (now : Nat) (acc : SyncAcc) (pid : String) :
    (syncOne metaW tagW sm stg now acc pid).items = acc.items ∨
    (∃ p, acc.items.find? (fun q => q.id == pid) = some p ∧
      p.status = ItemStatus.ANALYZED ∧
      ((syncOne metaW tagW sm stg now acc pid).items =
        updateProduct pid (fun q => { q with status := .SYNCED, syncedAt := some now })
          acc.items ∨
       ∃ msg, (syncOne metaW tagW sm stg now acc pid).items =
        updateProduct pid (fun q => { q with error := some msg }) acc.items)) := by
  unfold syncOne
  cases hf : acc.items.find? (fun q => q.id == pid) with
  | none => exact Or.inl rfl
  | some p =>
    dsimp only
    split_ifs with h1 <;>
      first
        | exact Or.inl rfl
        | exact Or.inr ⟨p, rfl, not_not.mp h1, Or.inl rfl⟩
        | exact Or.inr ⟨p, rfl, not_not.mp h1, Or.inr ⟨_, rfl⟩⟩

/-- Weak evolution of item rows across a whole sync loop: lengths, ids and
stored suggestions are unchanged, and each row's status is either untouched
or SYNCED. -/
theorem syncLoop_items_weak (metaW tagW : String → WriteResult)
    (sm stg : Bool) (now : Nat) (ids : List String) :
    ∀ (acc : SyncAcc),
    (syncLoop metaW tagW sm stg now ids acc).items.length = acc.items.length ∧
    (∀ (i : Nat) (h1 : i < acc.items.length)
      (h2 : i < (syncLoop metaW tagW sm stg now ids acc).items.length),
      ((syncLoop metaW tagW sm stg now ids acc).items.get ⟨i, h2⟩).id =
        (acc.items.get ⟨i, h1⟩).id ∧
      (((syncLoop metaW tagW sm stg now ids acc).items.get ⟨i, h2⟩).status =
        (acc.items.get ⟨i, h1⟩).status ∨
       ((syncLoop metaW tagW sm stg now ids acc).items.get ⟨i, h2⟩).status =
        ItemStatus.SYNCED)) := by
  induction ids with
  | nil => exact fun acc => ⟨rfl, fun i h1 h2 => ⟨rfl, Or.inl rfl⟩⟩
  | cons pid rest ih =>
    intro acc
    show (syncLoop metaW tagW sm stg now rest (syncOne metaW tagW sm stg now acc pid)).items.length
        = acc.items.length ∧ _
    set acc1 := syncOne metaW tagW sm stg now acc pid with hacc1
    have hone : acc1.items.length = acc.items.length ∧
        (∀ (i : Nat) (h1 : i < acc.items.length) (h2 : i < acc1.items.length),
          (acc1.items.get ⟨i, h2⟩).id = (acc.items.get ⟨i, h1⟩).id ∧
          ((acc1.items.get ⟨i, h2⟩).status = (acc.items.get ⟨i, h1⟩).status ∨
           (acc1.items.get ⟨i, h2⟩).status = ItemStatus.SYNCED)) := by
      rcases syncOne_items_cases metaW tagW sm stg now acc pid with hsame | ⟨p, _, _, hupd | ⟨msg, hupd⟩⟩
      · rw [hacc1, hsame]
        exact ⟨rfl, fun i h1 h2 => ⟨rfl, Or.inl rfl⟩⟩
      · rw [hacc1, hupd]
        refine ⟨updateProduct_length _ _ _, fun i h1 h2 => ?_⟩
        rw [updateProduct_get _ _ _ i h1 (by simpa [updateProduct_length] using h1)]
        split_ifs with hid
        · exact ⟨rfl, Or.inr rfl⟩
        · exact ⟨rfl, Or.inl rfl⟩
      · rw [hacc1, hupd]
        refine ⟨updateProduct_length _ _ _, fun i h1 h2 => ?_⟩
        rw [updateProduct_get _ _ _ i h1 (by simpa [updateProduct_length] using h1)]
        split_ifs with hid
        · exact ⟨rfl, Or.inl rfl⟩
        · exact ⟨rfl, Or.inl rfl⟩
    have hrest := ih acc1
    refine ⟨by rw [hrest.1, hone.1], fun i h1 h2 => ?_⟩
    have h1' : i < acc1.items.length := by rw [hone.1]; exact h1
    have hic := hone.2 i h1 h1'
    have hrc := hrest.2 i h1' h2
    refine ⟨hrc.1.trans hic.1, ?_⟩
    rcases hrc.2 with hs | hs
    · rcases hic.2 with ht | ht
      · exact Or.inl (hs.trans ht)
      · exact Or.inr (hs.trans ht)
    · exact Or.inr hs

/-! ### Progress counting -/

theorem processedCount_eq_countP (items : List Product) :
    processedCount items = items.countP (fun p => p.status != ItemStatus.PENDING) := by
  simp [processedCount, List.countP_eq_length_filter]

theorem processedCount_le_length (items : List Product) :
    processedCount items ≤ items.length := by
  rw [processedCount_eq_countP]
  exact List.countP_le_length _

/-- Pointwise preservation of "not PENDING" gives monotone processed counts. -/
theorem processedCount_le_pointwise : ∀ (a b : List Product),
    a.length = b.length →
    (∀ (i : Nat) (h1 : i < a.length) (h2 : i < b.length),
      (b.get ⟨i, h2⟩).status = ItemStatus.PENDING →
      (a.get ⟨i, h1⟩).status = ItemStatus.PENDING) →
    processedCount a ≤ processedCount b := by
  intro a
  induction a with
  | nil => intro b _ _; simp [processedCount]
  | cons p a ih =>
    intro b hlen hpt
    cases b with
    | nil => simp at hlen
    | cons q b =>
      have h0 := hpt 0 (by simp) (by simp)
      have hrec := ih b (by simpa using hlen)
        (fun i h1 h2 => hpt (i + 1) (by simpa using Nat.succ_lt_succ h1)
          (by simpa using Nat.succ_lt_succ h2))
      simp only [processedCount_eq_countP, List.countP_cons] at *
      by_cases hq : q.status = ItemStatus.PENDING
      · have hp : p.status = ItemStatus.PENDING := h0 hq
        simp [hp, hq]
        omega
      · have hqb : (q.status != ItemStatus.PENDING) = true := by
          simpa using hq
        by_cases hp : p.status = ItemStatus.PENDING
        · simp [hqb, hp]
          omega
        · have hpb : (p.status != ItemStatus.PENDING) = true := by
            simpa using hp
          simp [hqb, hpb]
          omega

/-- The worker settlement never writes PENDING on any row, keeps row ids, and
keeps the row count. -/
theorem workerSettle_items_weak (st : SysState) (pid : String) (res : VisionResponse) :
    (workerSettle st pid res).items.length = st.items.length ∧
    (∀ (i : Nat) (h1 : i < st.items.length)
      (h2 : i < (workerSettle st pid res).items.length),
      ((workerSettle st pid res).items.get ⟨i, h2⟩).id = (st.items.get ⟨i, h1⟩).id ∧
      (((workerSettle st pid res).items.get ⟨i, h2⟩).status = (st.items.get ⟨i, h1⟩).status ∨
        ((workerSettle st pid res).items.get ⟨i, h2⟩).status = ItemStatus.ANALYZED ∨
        ((workerSettle st pid res).items.get ⟨i, h2⟩).status = ItemStatus.ERROR)) := by
  refine ⟨updateProduct_length _ _ _, fun i h1 h2 => ?_⟩
  have hget : (workerSettle st pid res).items.get ⟨i, h2⟩ =
      if (st.items.get ⟨i, h1⟩).id == pid then applyVision res (st.items.get ⟨i, h1⟩)
      else st.items.get ⟨i, h1⟩ :=
    updateProduct_get pid (applyVision res) st.items i h1 h2
  rw [hget]
  split_ifs with hid
  · cases res with
    | result metafields tags => exact ⟨rfl, Or.inr (Or.inl rfl)⟩
    | error msg code => exact ⟨rfl, Or.inr (Or.inr rfl)⟩
  · exact ⟨rfl, Or.inl rfl⟩

/-! ### Job progress invariant (C2) -/

/-- Weak per-event item evolution: row count is stable and no event ever
writes PENDING. -/
theorem stepEvent_items_weak (st : SysState) (e : Event) :
    (stepEvent st e).items.length = st.items.length ∧
    (∀ (i : Nat) (h1 : i < st.items.length) (h2 : i < (stepEvent st e).items.length),
      ((stepEvent st e).items.get ⟨i, h2⟩).status = ItemStatus.PENDING →
      (st.items.get ⟨i, h1⟩).status = ItemStatus.PENDING) := by
  cases e with
  | worker pid res =>
    obtain ⟨hlen, hrel⟩ := workerSettle_items_weak st pid res
    refine ⟨hlen, fun i h1 h2 hpend => ?_⟩
    rcases (hrel i h1 h2).2 with hsame | hX | hX
    · rw [← hsame]; exact hpend
    · exact absurd (hpend.symm.trans hX) (by decide)
    · exact absurd (hpend.symm.trans hX) (by decide)
  | sync ids sm stg metaW tagW now =>
    by_cases hemp : ids.isEmpty
    · have hitems : (stepEvent st (.sync ids sm stg metaW tagW now)).items = st.items := by
        simp [stepEvent, syncSelectedProducts, hemp]
      rw [hitems]
      exact ⟨rfl, fun i h1 h2 hpend => hpend⟩
    · have hitems : (stepEvent st (.sync ids sm stg metaW tagW now)).items =
          (syncLoop metaW tagW sm stg now ids
            { synced := 0, errors := 0, errorMessages := [], writeCalls := [],
              items := st.items }).items := by
        simp [stepEvent, syncSelectedProducts, hemp]
      obtain ⟨hlen, hrel⟩ := syncLoop_items_weak metaW tagW sm stg now ids
        { synced := 0, errors := 0, errorMessages := [], writeCalls := [], items := st.items }
      rw [hitems]
      refine ⟨hlen, fun i h1 h2 hpend => ?_⟩
      rcases (hrel i h1 h2).2 with hsame | hX
      · rw [← hsame]; exact hpend
      · exact absurd (hpend.symm.trans hX) (by decide)

/-- Invariant tying the Job row to its Item rows. -/
def JobStateInv (items0 : List Product) (st : SysState) : Prop :=
  st.job.totalItems = items0.length ∧
  st.items.length = items0.length ∧
  st.job.processed ≤ processedCount st.items ∧
  (st.job.status = JobStatus.COMPLETED ↔ st.job.processed = st.job.totalItems)

theorem jobStateInv_init (items0 : List Product) (hne : items0 ≠ []) :
    JobStateInv items0 (initState items0) := by
  refine ⟨rfl, rfl, Nat.zero_le _, ?_⟩
  constructor
  · intro h; exact JobStatus.noConfusion h
  · intro h
    exact absurd (List.eq_nil_of_length_eq_zero h.symm) hne

theorem jobStateInv_step (items0 : List Product) (st : SysState) (e : Event)
    (h : JobStateInv items0 st) : JobStateInv items0 (stepEvent st e) := by
  obtain ⟨ht, hl, hp, hiff⟩ := h
  obtain ⟨hwlen, hwrel⟩ := stepEvent_items_weak st e
  have hmono : processedCount st.items ≤ processedCount (stepEvent st e).items :=
    processedCount_le_pointwise st.items _ hwlen.symm hwrel
  cases e with
  | worker pid res =>
    have hjob : (stepEvent st (.worker pid res)).job =
        { status := if processedCount (updateProduct pid (applyVision res) st.items) ≥
              st.job.totalItems then JobStatus.COMPLETED else JobStatus.PROCESSING
          totalItems := st.job.totalItems
          processed := processedCount (updateProduct pid (applyVision res) st.items) } := rfl
    have hitems : (stepEvent st (.worker pid res)).items =
        updateProduct pid (applyVision res) st.items := rfl
    refine ⟨?_, ?_, ?_, ?_⟩
    · rw [hjob]; exact ht
    · rw [hitems, updateProduct_length]; exact hl
    · rw [hjob, hitems]
    · rw [hjob]
      have hle2 : processedCount (updateProduct pid (applyVision res) st.items) ≤
          st.job.totalItems := by
        have := processedCount_le_length (updateProduct pid (applyVision res) st.items)
        rw [updateProduct_length, hl, ← ht] at this
        exact this
      by_cases hc : processedCount (updateProduct pid (applyVision res) st.items) ≥
          st.job.totalItems
      · rw [if_pos hc]
        exact ⟨fun _ => Nat.le_antisymm hle2 hc, fun _ => rfl⟩
      · rw [if_neg hc]
        exact ⟨fun hcon => JobStatus.noConfusion hcon, fun he => absurd (ge_of_eq he) hc⟩
  | sync ids sm stg metaW tagW now =>
    have hjob : (stepEvent st (.sync ids sm stg metaW tagW now)).job = st.job := rfl
    refine ⟨?_, ?_, ?_, ?_⟩
    · rw [hjob]; exact ht
    · rw [hwlen]; exact hl
    · rw [hjob]; exact hp.trans hmono
    · rw [hjob]; exact hiff

theorem jobStateInv_runAux (items0 : List Product) (events : List Event) :
    ∀ (st : SysState), JobStateInv items0 st →
      JobStateInv items0 (runEvents st events) := by
  induction events with
  | nil => exact fun st h => h
  | cons e es ih => exact fun st h => ih _ (jobStateInv_step items0 st e h)

/-- C2: from job creation (non-empty item set, all PENDING is not even
needed: any created job state), across every event sequence, `processed` is
monotonically non-decreasing at every step, and in every reachable state the
Job's status is COMPLETED exactly when `processed = totalItems`. -/
theorem job_progress_monotone_and_completion (items0 : List Product)
    (events : List Event) (e : Event) (hne : items0 ≠ []) :
    (runEvents (initState items0) events).job.processed ≤
      (stepEvent (runEvents (initState items0) events) e).job.processed ∧
    ((runEvents (initState items0) events).job.status = JobStatus.COMPLETED ↔
      (runEvents (initState items0) events).job.processed =
        (runEvents (initState items0) events).job.totalItems) := by
  obtain ⟨ht, hl, hp, hiff⟩ :=
    jobStateInv_runAux items0 events (initState items0) (jobStateInv_init items0 hne)
  refine ⟨?_, hiff⟩
  obtain ⟨hwlen, hwrel⟩ := stepEvent_items_weak (runEvents (initState items0) events) e
  have hmono : processedCount (runEvents (initState items0) events).items ≤
      processedCount (stepEvent (runEvents (initState items0) events) e).items :=
    processedCount_le_pointwise _ _ hwlen.symm hwrel
  cases e with
  | worker pid res =>
    have hppost : (stepEvent (runEvents (initState items0) events) (.worker pid res)).job.processed =
        processedCount (stepEvent (runEvents (initState items0) events) (.worker pid res)).items := rfl
    rw [hppost]
    exact hp.trans hmono
  | sync ids sm stg metaW tagW now =>
    have hjob : (stepEvent (runEvents (initState items0) events)
        (.sync ids sm stg metaW tagW now)).job = (runEvents (initState items0) events).job := rfl
    rw [hjob]

/-- A PENDING product row used by concrete witnesses. -/
def witnessItem : Product :=
  { id := "gid://shopify/Product/1", jobId := "job1", title := "Shirt",
    imageUrl := "https://cdn.example/img.jpg", currentCategory := none,
    currentTags := "", status := .PENDING, suggestedMetafields := none,
    suggestedTags := none, syncedAt := none, error := none }

/-- Witness for C2 on a one-item job with a worker settlement event. -/
theorem job_progress_monotone_and_completion_witness :
    (runEvents (initState [witnessItem]) []).job.processed ≤
      (stepEvent (runEvents (initState [witnessItem]) [])
        (Event.worker "gid://shopify/Product/1"
          (.result [("color", "Blue")] ["Blue"]))).job.processed ∧
    ((runEvents (initState [witnessItem]) []).job.status = JobStatus.COMPLETED ↔
      (runEvents (initState [witnessItem]) []).job.processed =
        (runEvents (initState [witnessItem]) []).job.totalItems) :=
  job_progress_monotone_and_completion [witnessItem] []
    (Event.worker "gid://shopify/Product/1" (.result [("color", "Blue")] ["Blue"]))
    (List.cons_ne_nil _ _)

/-! ### Item status transitions (C3) -/

/-- The status transition relation asserted by the specification: stutter,
PENDING→ANALYZED, PENDING→ERROR, or ANALYZED→SYNCED. -/
def SpecTransition (b a : ItemStatus) : Prop :=
  a = b ∨
  (b = ItemStatus.PENDING ∧ a = ItemStatus.ANALYZED) ∨
  (b = ItemStatus.PENDING ∧ a = ItemStatus.ERROR) ∨
  (b = ItemStatus.ANALYZED ∧ a = ItemStatus.SYNCED)

instance (b a : ItemStatus) : Decidable (SpecTransition b a) := by
  unfold SpecTransition
  exact inferInstance

/-- Analyzer success response used in concrete traces. -/
def okVision : VisionResponse := .result [("color", "Blue")] ["Blue"]

/-- A catalog write oracle that always succeeds. -/
def okWrite : String → WriteResult := fun _ => { success := true, error := none }

/-- Trace of claim C3's counterexample: the item is analyzed, then synced. -/
def redeliveryTrace : List Event :=
  [ .worker "gid://shopify/Product/1" okVision,
    .sync ["gid://shopify/Product/1"] true true okWrite okWrite 0 ]

/-- The same analysis task delivered once more (at-least-once delivery). -/
def redeliveredTask : Event := .worker "gid://shopify/Product/1" okVision

/-- C3 counterexample: the worker writes the Item status unconditionally, so
a redelivered analysis task moves an already SYNCED Item back to ANALYZED —
a transition outside the specified relation. -/
theorem item_transition_counterexample :
    (runEvents (initState [witnessItem]) redeliveryTrace).items.map Product.status =
      [ItemStatus.SYNCED] ∧
    (stepEvent (runEvents (initState [witnessItem]) redeliveryTrace)
        redeliveredTask).items.map Product.status = [ItemStatus.ANALYZED] ∧
    ¬ SpecTransition ItemStatus.SYNCED ItemStatus.ANALYZED := by
  exact ⟨rfl, rfl, by decide⟩

/-- The row ids of two pointwise-id-equal row lists agree. -/
theorem map_id_eq_of_pointwise (a b : List Product) (hlen : a.length = b.length)
    (h : ∀ (i : Nat) (h1 : i < a.length) (h2 : i < b.length),
      (a.get ⟨i, h1⟩).id = (b.get ⟨i, h2⟩).id) :
    a.map Product.id = b.map Product.id := by
  apply List.ext_get (by simpa using hlen)
  intro n h1 h2
  simp only [List.get_map]
  exact h n (by simpa using h1) (by simpa using h2)

/-- With unique row ids, the row found for an id is the row at any position
carrying that id. -/
theorem get_eq_find_of_nodup (items : List Product) (pid : String)
    (hnd : (items.map Product.id).Nodup) (p : Product)
    (hf : items.find? (fun q => q.id == pid) = some p)
    (i : Nat) (h : i < items.length) (hid : ((items.get ⟨i, h⟩).id == pid) = true) :
    items.get ⟨i, h⟩ = p := by
  have hmem : p ∈ items := List.mem_of_find?_eq_some hf
  have hpid : (p.id == pid) = true := by simpa using List.find?_some hf
  have hmem2 : items.get ⟨i, h⟩ ∈ items := items.get_mem _ _
  have heq : Product.id (items.get ⟨i, h⟩) = Product.id p := by
    rw [eq_of_beq hid, eq_of_beq hpid]
  exact List.inj_on_of_nodup_map hnd hmem2 hmem heq

theorem updateProduct_map_id (pid : String) (f : Product → Product)
    (items : List Product) (hf : ∀ p, (f p).id = p.id) :
    (updateProduct pid f items).map Product.id = items.map Product.id := by
  apply map_id_eq_of_pointwise _ _ (updateProduct_length _ _ _)
  intro i h1 h2
  rw [updateProduct_get pid f items i h2 h1]
  split_ifs with hid
  · exact hf _
  · rfl

/-- Strong evolution of item rows across a sync loop over rows with unique
ids: each row keeps its id, and its status is untouched unless the row was
ANALYZED and becomes SYNCED. -/
theorem syncLoop_items_strong (metaW tagW : String → WriteResult)
    (sm stg : Bool) (now : Nat) (ids : List String) :
    ∀ (acc : SyncAcc), (acc.items.map Product.id).Nodup →
    (syncLoop metaW tagW sm stg now ids acc).items.length = acc.items.length ∧
    (∀ (i : Nat) (h1 : i < acc.items.length)
      (h2 : i < (syncLoop metaW tagW sm stg now ids acc).items.length),
      ((syncLoop metaW tagW sm stg now ids acc).items.get ⟨i, h2⟩).id =
        (acc.items.get ⟨i, h1⟩).id ∧
      (((syncLoop metaW tagW sm stg now ids acc).items.get ⟨i, h2⟩).status =
        (acc.items.get ⟨i, h1⟩).status ∨
       ((acc.items.get ⟨i, h1⟩).status = ItemStatus.ANALYZED ∧
        ((syncLoop metaW tagW sm stg now ids acc).items.get ⟨i, h2⟩).status =
          ItemStatus.SYNCED))) := by
  induction ids with
  | nil => exact fun acc _ => ⟨rfl, fun i h1 h2 => ⟨rfl, Or.inl rfl⟩⟩
  | cons pid rest ih =>
    intro acc hnd
    set acc1 := syncOne metaW tagW sm stg now acc pid with hacc1
    have hone : acc1.items.length = acc.items.length ∧
        (∀ (i : Nat) (h1 : i < acc.items.length) (h2 : i < acc1.items.length),
          (acc1.items.get ⟨i, h2⟩).id = (acc.items.get ⟨i, h1⟩).id ∧
          ((acc1.items.get ⟨i, h2⟩).status = (acc.items.get ⟨i, h1⟩).status ∨
           ((acc.items.get ⟨i, h1⟩).status = ItemStatus.ANALYZED ∧
            (acc1.items.get ⟨i, h2⟩).status = ItemStatus.SYNCED))) := by
      rcases syncOne_items_cases metaW tagW sm stg now acc pid with
        hsame | ⟨p, hf, hstat, hupd | ⟨msg, hupd⟩⟩
      · rw [hacc1, hsame]
        exact ⟨rfl, fun i h1 h2 => ⟨rfl, Or.inl rfl⟩⟩
      · rw [hacc1, hupd]
        refine ⟨updateProduct_length _ _ _, fun i h1 h2 => ?_⟩
        rw [updateProduct_get _ _ _ i h1 (by simpa [updateProduct_length] using h1)]
        split_ifs with hid
        · have hp := get_eq_find_of_nodup acc.items pid hnd p hf i h1 hid
          exact ⟨rfl, Or.inr ⟨by rw [hp]; exact hstat, rfl⟩⟩
        · exact ⟨rfl, Or.inl rfl⟩
      · rw [hacc1, hupd]
        refine ⟨updateProduct_length _ _ _, fun i h1 h2 => ?_⟩
        rw [updateProduct_get _ _ _ i h1 (by simpa [updateProduct_length] using h1)]
        split_ifs with hid
        · exact ⟨rfl, Or.inl rfl⟩
        · exact ⟨rfl, Or.inl rfl⟩
    have hnd1 : (acc1.items.map Product.id).Nodup := by
      have : acc1.items.map Product.id = acc.items.map Product.id :=
        map_id_eq_of_pointwise _ _ hone.1 (fun i h1 h2 => (hone.2 i h2 h1).1)
      rw [this]
      exact hnd
    have hrest := ih acc1 hnd1
    refine ⟨(hrest.1.trans hone.1 : _), fun i h1 h2 => ?_⟩
    have h1' : i < acc1.items.length := by rw [hone.1]; exact h1
    have hic := hone.2 i h1 h1'
    have hrc := hrest.2 i h1' h2
    refine ⟨hrc.1.trans hic.1, ?_⟩
    rcases hrc.2 with hs | ⟨ha, hs⟩
    · rcases hic.2 with ht | ⟨ha', ht⟩
      · exact Or.inl (hs.trans ht)
      · exact Or.inr ⟨ha', hs.trans ht⟩
    · rcases hic.2 with ht | ⟨ha', ht⟩
      · exact Or.inr ⟨ht.symm.trans ha, hs⟩
      · exact absurd (ha.symm.trans ht) (by decide)

/-- Transport a row lookup along an equality of row lists. -/
theorem get_congr_list {l1 l2 : List Product} (h : l1 = l2) (i : Nat)
    (h1 : i < l1.length) (h2 : i < l2.length) :
    l1.get ⟨i, h1⟩ = l2.get ⟨i, h2⟩ := by
  subst h
  rfl

/-- Invariant of a list of item rows along a trace: row ids never change, and
a row whose task has not yet been consumed by a worker event is still
PENDING. -/
def TraceInvItems (items0 : List Product) (consumed : List String)
    (items : List Product) : Prop :=
  items.map Product.id = items0.map Product.id ∧
  ∀ (i : Nat) (h : i < items.length),
    (items.get ⟨i, h⟩).id ∉ consumed → (items.get ⟨i, h⟩).status = ItemStatus.PENDING

/-- The trace invariant on a job state. -/
def TraceInv (items0 : List Product) (consumed : List String) (st : SysState) : Prop :=
  TraceInvItems items0 consumed st.items

theorem traceInv_step (items0 : List Product) (hnd : (items0.map Product.id).Nodup)
    (consumed : List String) (st : SysState) (e : Event)
    (h : TraceInv items0 consumed st) :
    TraceInv items0 (consumed ++ workerPids [e]) (stepEvent st e) := by
  obtain ⟨hids, hpend⟩ := h
  cases e with
  | worker pid res =>
    have hidpres : ∀ p, (applyVision res p).id = p.id := fun p => by cases res <;> rfl
    constructor
    · have heq : (stepEvent st (.worker pid res)).items.map Product.id =
          st.items.map Product.id :=
        updateProduct_map_id pid (applyVision res) st.items hidpres
      rw [heq]
      exact hids
    · intro i h hnot
      have h1 : i < st.items.length := by
        rw [← updateProduct_length pid (applyVision res) st.items]
        exact h
      have hget : (stepEvent st (.worker pid res)).items.get ⟨i, h⟩ =
          if ((st.items.get ⟨i, h1⟩).id == pid) = true
          then applyVision res (st.items.get ⟨i, h1⟩)
          else st.items.get ⟨i, h1⟩ :=
        updateProduct_get pid (applyVision res) st.items i h1 h
      rw [hget] at hnot ⊢
      split_ifs at hnot ⊢ with hid
      · exfalso
        apply hnot
        apply List.mem_append_right
        have hpidq : (applyVision res (st.items.get ⟨i, h1⟩)).id = pid := by
          rw [hidpres]
          exact eq_of_beq hid
        rw [hpidq]
        simp [workerPids, workerPid]
      · exact hpend i h1 (fun hmem => hnot (List.mem_append_left _ hmem))
  | sync ids sm stg metaW tagW now =>
    have hw : workerPids [Event.sync ids sm stg metaW tagW now] = [] := rfl
    rw [hw, List.append_nil]
    show TraceInvItems items0 consumed (stepEvent st (.sync ids sm stg metaW tagW now)).items
    by_cases hemp : ids.isEmpty
    · have hitems : (stepEvent st (.sync ids sm stg metaW tagW now)).items = st.items := by
        simp [stepEvent, syncSelectedProducts, hemp]
      rw [hitems]
      exact ⟨hids, hpend⟩
    · have hitems : (stepEvent st (.sync ids sm stg metaW tagW now)).items =
          (syncLoop metaW tagW sm stg now ids
            { synced := 0, errors := 0, errorMessages := [], writeCalls := [],
              items := st.items }).items := by
        simp [stepEvent, syncSelectedProducts, hemp]
      rw [hitems]
      have hndst : (st.items.map Product.id).Nodup := by
        rw [hids]
        exact hnd
      obtain ⟨hlen, hrel⟩ := syncLoop_items_strong metaW tagW sm stg now ids
        { synced := 0, errors := 0, errorMessages := [], writeCalls := [],
          items := st.items } hndst
      constructor
      · exact (map_id_eq_of_pointwise _ _ hlen (fun i h1 h2 => (hrel i h2 h1).1)).trans hids
      · intro i h hnot
        have h1 : i < st.items.length := by rw [← hlen]; exact h
        obtain ⟨hidq, hstat⟩ := hrel i h1 h
        rw [hidq] at hnot
        have hpd := hpend i h1 hnot
        rcases hstat with hs | ⟨ha, _⟩
        · rw [hs]; exact hpd
        · exact absurd (hpd.symm.trans ha) (by decide)

theorem traceInv_run (items0 : List Product) (hnd : (items0.map Product.id).Nodup)
    (events : List Event) :
    ∀ (consumed : List String) (st : SysState), TraceInv items0 consumed st →
      TraceInv items0 (consumed ++ workerPids events) (runEvents st events) := by
  induction events with
  | nil =>
    intro c st h
    simpa [workerPids] using h
  | cons e es ih =>
    intro c st h
    have h1 := traceInv_step items0 hnd c st e h
    have h2 := ih (c ++ workerPids [e]) (stepEvent st e) h1
    rw [List.append_assoc] at h2
    have hsplit : workerPids [e] ++ workerPids es = workerPids (e :: es) := by
      cases e <;> simp [workerPids, workerPid]
    rw [hsplit] at h2
    exact h2

/-- C3 amended: the worker writes Item status unconditionally, so a retried
or redelivered task can overwrite a settled status (see the counterexample);
however, in every execution in which each Item's task is executed at most
once by the worker, every observed transition lies in the specified relation:
PENDING→ANALYZED, PENDING→ERROR, ANALYZED→SYNCED, or no change. -/
theorem item_transitions_single_delivery (items0 : List Product)
    (pre : List Event) (e : Event) (post : List Event)
    (h0 : ∀ p ∈ items0, p.status = ItemStatus.PENDING)
    (hnd : (items0.map Product.id).Nodup)
    (honce : (workerPids (pre ++ e :: post)).Nodup)
    (i : Nat) (h1 : i < (runEvents (initState items0) pre).items.length)
    (h2 : i < (stepEvent (runEvents (initState items0) pre) e).items.length) :
    SpecTransition ((runEvents (initState items0) pre).items.get ⟨i, h1⟩).status
      ((stepEvent (runEvents (initState items0) pre) e).items.get ⟨i, h2⟩).status := by
  have hinv0 : TraceInv items0 [] (initState items0) :=
    ⟨rfl, fun j hj _ => h0 _ (List.get_mem _ _ _)⟩
  have hinv := traceInv_run items0 hnd pre [] _ hinv0
  rw [List.nil_append] at hinv
  obtain ⟨hids, hpend⟩ := hinv
  cases e with
  | worker pid res =>
    have hfresh : pid ∉ workerPids pre := by
      have hsplit : workerPids (pre ++ Event.worker pid res :: post) =
          workerPids pre ++ pid :: workerPids post := by
        simp [workerPids, List.filterMap_append, workerPid]
      rw [hsplit] at honce
      have hdis := List.disjoint_of_nodup_append honce
      intro hmem
      exact hdis hmem (List.mem_cons_self _ _)
    have hget : (stepEvent (runEvents (initState items0) pre)
          (.worker pid res)).items.get ⟨i, h2⟩ =
        if (((runEvents (initState items0) pre).items.get ⟨i, h1⟩).id == pid) = true
        then applyVision res ((runEvents (initState items0) pre).items.get ⟨i, h1⟩)
        else (runEvents (initState items0) pre).items.get ⟨i, h1⟩ :=
      updateProduct_get pid (applyVision res) _ i h1 h2
    rw [hget]
    split_ifs with hid
    · have hpd : ((runEvents (initState items0) pre).items.get ⟨i, h1⟩).status =
          ItemStatus.PENDING := by
        apply hpend i h1
        rw [eq_of_beq hid]
        exact hfresh
      cases res with
      | result metafields tags => exact Or.inr (Or.inl ⟨hpd, rfl⟩)
      | error msg code => exact Or.inr (Or.inr (Or.inl ⟨hpd, rfl⟩))
    · exact Or.inl rfl
  | sync ids sm stg metaW tagW now =>
    by_cases hemp : ids.isEmpty
    · have hitems : (stepEvent (runEvents (initState items0) pre)
          (.sync ids sm stg metaW tagW now)).items =
          (runEvents (initState items0) pre).items := by
        simp [stepEvent, syncSelectedProducts, hemp]
      rw [get_congr_list hitems i h2 (by rw [← hitems]; exact h2)]
      rw [get_congr_list (rfl : (runEvents (initState items0) pre).items = _) i
        (by rw [← hitems]; exact h2) h1]
      exact Or.inl rfl
    · have hndst : ((runEvents (initState items0) pre).items.map Product.id).Nodup := by
        rw [hids]
        exact hnd
      have hitems : (stepEvent (runEvents (initState items0) pre)
          (.sync ids sm stg metaW tagW now)).items =
          (syncLoop metaW tagW sm stg now ids
            { synced := 0, errors := 0, errorMessages := [], writeCalls := [],
              items := (runEvents (initState items0) pre).items }).items := by
        simp [stepEvent, syncSelectedProducts, hemp]
      obtain ⟨hlen, hrel⟩ := syncLoop_items_strong metaW tagW sm stg now ids
        { synced := 0, errors := 0, errorMessages := [], writeCalls := [],
          items := (runEvents (initState items0) pre).items } hndst
      have h2' : i < (syncLoop metaW tagW sm stg now ids
          { synced := 0, errors := 0, errorMessages := [], writeCalls := [],
            items := (runEvents (initState items0) pre).items }).items.length := by
        rw [← hitems]
        exact h2
      obtain ⟨hidq, hstat⟩ := hrel i h1 h2'
      rw [get_congr_list hitems i h2 h2']
      rcases hstat with hs | ⟨ha, hs⟩
      · exact Or.inl hs
      · exact Or.inr (Or.inr (Or.inr ⟨ha, hs⟩))

/-- Witness for the amended C3 on a one-item trace: the single delivery of
the item's task moves it PENDING→ANALYZED, within the specified relation. -/
theorem item_transitions_single_delivery_witness :
    SpecTransition ((runEvents (initState [witnessItem]) []).items.get
        ⟨0, by decide⟩).status
      ((stepEvent (runEvents (initState [witnessItem]) [])
          (Event.worker "gid://shopify/Product/1" okVision)).items.get
        ⟨0, by decide⟩).status :=
  item_transitions_single_delivery [witnessItem] []
    (Event.worker "gid://shopify/Product/1" okVision) [] (by decide) (by decide)
    (by decide) 0 (by decide) (by decide)

/-! ### Sync batch semantics (C5, C10) -/

/-- Is the row found for `pid` eligible for sync (present and ANALYZED)?
Rows in any other status are skipped, not errors. -/
def syncEligible (items : List Product) (pid : String) : Bool :=
  match items.find? (fun p => p.id == pid) with
  | some p => p.status == ItemStatus.ANALYZED
  | none => false

/-- Do all selected field-group writes for `pid` succeed?  A write that is
not performed (group not selected, or stored suggestion null) counts as
success. -/
def syncWritesOk (metaW tagW : String → WriteResult) (sm stg : Bool)
    (items : List Product) (pid : String) : Bool :=
  match items.find? (fun p => p.id == pid) with
  | some p =>
      (!(sm && p.suggestedMetafields.isSome) || (metaW pid).success) &&
      (!(stg && p.suggestedTags.isSome) || (tagW pid).success)
  | none => false

/-- The concatenated failure reasons (`[metaError, tagError].filter(Boolean)
.join("; ")`) recorded for a failing row. -/
def syncFailMsg (metaW tagW : String → WriteResult) (sm stg : Bool)
    (p : Product) (pid : String) : String :=
  String.intercalate "; "
    ([(if (sm && p.suggestedMetafields.isSome) = true then metaW pid
        else { success := true, error := none }).error,
      (if (stg && p.suggestedTags.isSome) = true then tagW pid
        else { success := true, error := none }).error].filterMap id)

/-- The external write calls performed for one eligible row. -/
def pidCalls (sm stg : Bool) (p : Product) (pid : String) :
    List (String × FieldGroup) :=
  (if (sm && p.suggestedMetafields.isSome) = true
    then [(pid, FieldGroup.metafields)] else []) ++
  (if (stg && p.suggestedTags.isSome) = true
    then [(pid, FieldGroup.tags)] else [])

theorem find?_updateProduct_ne (pid q : String) (hne : q ≠ pid)
    (f : Product → Product) (hf : ∀ p, (f p).id = p.id) (items : List Product) :
    (updateProduct pid f items).find? (fun r => r.id == q) =
      items.find? (fun r => r.id == q) := by
  induction items with
  | nil => rfl
  | cons e rest ih =>
    show List.find? _ ((if (e.id == pid) = true then f e else e) :: updateProduct pid f rest) = _
    by_cases hpe : (e.id == pid) = true
    · have hq : (e.id == q) = false := by
        have : e.id = pid := eq_of_beq hpe
        rw [this]
        exact beq_eq_false_iff_ne.mpr (fun hc => hne hc.symm)
      have hq2 : ((f e).id == q) = false := by rw [hf]; exact hq
      rw [if_pos hpe,
        @List.find?_cons_of_neg _ (fun r => r.id == q) (f e) _ (by simp [hq2]),
        @List.find?_cons_of_neg _ (fun r => r.id == q) e rest (by simp [hq])]
      exact ih
    · rw [if_neg hpe]
      by_cases hq : (e.id == q) = true
      · rw [@List.find?_cons_of_pos _ (fun r => r.id == q) e _ hq,
          @List.find?_cons_of_pos _ (fun r => r.id == q) e rest hq]
      · rw [@List.find?_cons_of_neg _ (fun r => r.id == q) e _ (by simpa using hq),
          @List.find?_cons_of_neg _ (fun r => r.id == q) e rest (by simpa using hq)]
        exact ih

theorem find?_updateProduct_eq (pid : String) (f : Product → Product)
    (hf : ∀ p, (f p).id = p.id) (items : List Product) :
    (updateProduct pid f items).find? (fun r => r.id == pid) =
      (items.find? (fun r => r.id == pid)).map f := by
  induction items with
  | nil => rfl
  | cons e rest ih =>
    show List.find? _ ((if (e.id == pid) = true then f e else e) :: updateProduct pid f rest) = _
    by_cases hpe : (e.id == pid) = true
    · have hpe2 : ((f e).id == pid) = true := by rw [hf]; exact hpe
      rw [if_pos hpe,
        @List.find?_cons_of_pos _ (fun r => r.id == pid) (f e) _ hpe2,
        @List.find?_cons_of_pos _ (fun r => r.id == pid) e rest hpe]
      rfl
    · rw [if_neg hpe,
        @List.find?_cons_of_neg _ (fun r => r.id == pid) e _ (by simpa using hpe),
        @List.find?_cons_of_neg _ (fun r => r.id == pid) e rest (by simpa using hpe)]
      exact ih

/-- Full characterization of one sync loop body step. -/
theorem syncOne_spec (metaW tagW : String → WriteResult) (sm stg : Bool)
    (now : Nat) (acc : SyncAcc) (pid : String) :
    (syncEligible acc.items pid = false ∧
      syncOne metaW tagW sm stg now acc pid = acc) ∨
    (∃ p, acc.items.find? (fun q => q.id == pid) = some p ∧
      syncEligible acc.items pid = true ∧
      ((syncWritesOk metaW tagW sm stg acc.items pid = true ∧
        syncOne metaW tagW sm stg now acc pid =
          { synced := acc.synced + 1, errors := acc.errors,
            errorMessages := acc.errorMessages,
            writeCalls := acc.writeCalls ++ pidCalls sm stg p pid,
            items := updateProduct pid
              (fun q => { q with status := .SYNCED, syncedAt := some now })
              acc.items }) ∨
       (syncWritesOk metaW tagW sm stg acc.items pid = false ∧
        syncOne metaW tagW sm stg now acc pid =
          { synced := acc.synced, errors := acc.errors + 1,
            errorMessages := acc.errorMessages ++
              [p.title ++ ": " ++ syncFailMsg metaW tagW sm stg p pid],
            writeCalls := acc.writeCalls ++ pidCalls sm stg p pid,
            items := updateProduct pid
              (fun q => { q with error := some (syncFailMsg metaW tagW sm stg p pid) })
              acc.items }))) := by
  unfold syncOne
  cases hf : acc.items.find? (fun q => q.id == pid) with
  | none =>
    refine Or.inl ⟨?_, rfl⟩
    unfold syncEligible
    rw [hf]
  | some p =>
    dsimp only
    by_cases hst : p.status ≠ ItemStatus.ANALYZED
    · rw [if_pos hst]
      refine Or.inl ⟨?_, rfl⟩
      unfold syncEligible
      rw [hf]
      simpa using hst
    · rw [if_neg hst]
      push_neg at hst
      have hok : syncWritesOk metaW tagW sm stg acc.items pid =
          ((if (sm && p.suggestedMetafields.isSome) = true then metaW pid
            else { success := true, error := none : WriteResult }).success &&
           (if (stg && p.suggestedTags.isSome) = true then tagW pid
            else { success := true, error := none : WriteResult }).success) := by
        unfold syncWritesOk
        rw [hf]
        by_cases hm : (sm && p.suggestedMetafields.isSome) = true <;>
          by_cases htg : (stg && p.suggestedTags.isSome) = true <;>
            simp [hm, htg]
      refine Or.inr ⟨p, rfl, ?_, ?_⟩
      · unfold syncEligible
        rw [hf]
        simpa using hst
      · by_cases hsucc : ((if (sm && p.suggestedMetafields.isSome) = true then metaW pid
            else { success := true, error := none : WriteResult }).success &&
           (if (stg && p.suggestedTags.isSome) = true then tagW pid
            else { success := true, error := none : WriteResult }).success) = true
        · rw [if_pos hsucc]
          refine Or.inl ⟨hok.trans hsucc, ?_⟩
          show SyncAcc.mk _ _ _ _ _ = _
          simp only [pidCalls, List.append_assoc]
        · rw [if_neg hsucc]
          refine Or.inr ⟨by rw [hok]; simpa using hsucc, ?_⟩
          show SyncAcc.mk _ _ _ _ _ = _
          simp only [pidCalls, List.append_assoc, syncFailMsg]

theorem syncOne_counts (metaW tagW : String → WriteResult) (sm stg : Bool)
    (now : Nat) (acc : SyncAcc) (pid : String) :
    (syncOne metaW tagW sm stg now acc pid).synced =
      acc.synced + (if (syncEligible acc.items pid &&
        syncWritesOk metaW tagW sm stg acc.items pid) = true then 1 else 0) ∧
    (syncOne metaW tagW sm stg now acc pid).errors =
      acc.errors + (if (syncEligible acc.items pid &&
        !(syncWritesOk metaW tagW sm stg acc.items pid)) = true then 1 else 0) := by
  rcases syncOne_spec metaW tagW sm stg now acc pid with
    ⟨hel, heq⟩ | ⟨p, hf, hel, ⟨hok, heq⟩ | ⟨hok, heq⟩⟩
  · rw [heq]; simp [hel]
  · rw [heq]; simp [hel, hok]
  · rw [heq]; simp [hel, hok]

/-- Specification of the sync loop over a duplicate-free selection: the
counters tally the eligible rows by write success, rows outside the selection
are untouched, and each selected ANALYZED row either becomes SYNCED with
`syncedAt` stamped (all selected writes succeeded) or keeps its fields with
the concatenated failure reasons recorded in `error` (some selected write
failed). -/
theorem syncLoop_spec (metaW tagW : String → WriteResult) (sm stg : Bool)
    (now : Nat) :
    ∀ (ids : List String) (acc : SyncAcc), ids.Nodup →
    ((syncLoop metaW tagW sm stg now ids acc).synced =
      acc.synced + (ids.filter (fun q => syncEligible acc.items q &&
        syncWritesOk metaW tagW sm stg acc.items q)).length) ∧
    ((syncLoop metaW tagW sm stg now ids acc).errors =
      acc.errors + (ids.filter (fun q => syncEligible acc.items q &&
        !(syncWritesOk metaW tagW sm stg acc.items q))).length) ∧
    (∀ q, q ∉ ids → (syncLoop metaW tagW sm stg now ids acc).items.find?
      (fun r => r.id == q) = acc.items.find? (fun r => r.id == q)) ∧
    (∀ q ∈ ids, ∀ p, acc.items.find? (fun r => r.id == q) = some p →
      p.status = ItemStatus.ANALYZED →
      (syncWritesOk metaW tagW sm stg acc.items q = true →
        (syncLoop metaW tagW sm stg now ids acc).items.find? (fun r => r.id == q) =
          some { p with status := .SYNCED, syncedAt := some now }) ∧
      (syncWritesOk metaW tagW sm stg acc.items q = false →
        (syncLoop metaW tagW sm stg now ids acc).items.find? (fun r => r.id == q) =
          some { p with error := some (syncFailMsg metaW tagW sm stg p q) })) := by
  intro ids
  induction ids with
  | nil =>
    intro acc _
    exact ⟨rfl, rfl, fun q _ => rfl,
      fun q hq => absurd hq (List.not_mem_nil _)⟩
  | cons pid rest ih =>
    intro acc hnd
    have hnd' : rest.Nodup := (List.nodup_cons.mp hnd).2
    have hpidrest : pid ∉ rest := (List.nodup_cons.mp hnd).1
    set acc1 := syncOne metaW tagW sm stg now acc pid with hacc1
    obtain ⟨ihs, ihe, ihf, ihp⟩ := ih acc1 hnd'
    have hframe : ∀ q, q ≠ pid → acc1.items.find? (fun r => r.id == q) =
        acc.items.find? (fun r => r.id == q) := by
      intro q hq
      rcases syncOne_items_cases metaW tagW sm stg now acc pid with
        hsame | ⟨p, _, _, hupd | ⟨msg, hupd⟩⟩
      · rw [hacc1, hsame]
      · rw [hacc1, hupd, find?_updateProduct_ne pid q hq
          (fun r => { r with status := ItemStatus.SYNCED, syncedAt := some now })
          (fun r => rfl)]
      · rw [hacc1, hupd, find?_updateProduct_ne pid q hq
          (fun r => { r with error := some msg }) (fun r => rfl)]
    have hpredcongr : ∀ q ∈ rest,
        syncEligible acc1.items q = syncEligible acc.items q ∧
        syncWritesOk metaW tagW sm stg acc1.items q =
          syncWritesOk metaW tagW sm stg acc.items q := by
      intro q hq
      have hfq := hframe q (fun hc => hpidrest (hc ▸ hq))
      unfold syncEligible syncWritesOk
      rw [hfq]
      exact ⟨rfl, rfl⟩
    have hfiltS : rest.filter (fun q => syncEligible acc1.items q &&
          syncWritesOk metaW tagW sm stg acc1.items q) =
        rest.filter (fun q => syncEligible acc.items q &&
          syncWritesOk metaW tagW sm stg acc.items q) := by
      apply List.filter_congr
      intro q hq
      rw [(hpredcongr q hq).1, (hpredcongr q hq).2]
    have hfiltE : rest.filter (fun q => syncEligible acc1.items q &&
          !(syncWritesOk metaW tagW sm stg acc1.items q)) =
        rest.filter (fun q => syncEligible acc.items q &&
          !(syncWritesOk metaW tagW sm stg acc.items q)) := by
      apply List.filter_congr
      intro q hq
      rw [(hpredcongr q hq).1, (hpredcongr q hq).2]
    have hcnt := syncOne_counts metaW tagW sm stg now acc pid
    refine ⟨?_, ?_, ?_, ?_⟩
    · show (syncLoop metaW tagW sm stg now rest acc1).synced = _
      rw [ihs, hfiltS, hcnt.1, List.filter_cons]
      by_cases hc : (syncEligible acc.items pid &&
          syncWritesOk metaW tagW sm stg acc.items pid) = true
      · simp only [hc, if_pos, List.length_cons]
        omega
      · simp only [hc, if_neg, Bool.false_eq_true, if_false]
        omega
    · show (syncLoop metaW tagW sm stg now rest acc1).errors = _
      rw [ihe, hfiltE, hcnt.2, List.filter_cons]
      by_cases hc : (syncEligible acc.items pid &&
          !(syncWritesOk metaW tagW sm stg acc.items pid)) = true
      · simp only [hc, if_pos, List.length_cons]
        omega
      · simp only [hc, if_neg, Bool.false_eq_true, if_false]
        omega
    · intro q hq
      have hq1 : q ≠ pid := fun hc => hq (hc ▸ List.mem_cons_self _ _)
      have hq2 : q ∉ rest := fun hc => hq (List.mem_cons_of_mem _ hc)
      show (syncLoop metaW tagW sm stg now rest acc1).items.find? _ = _
      rw [ihf q hq2, hframe q hq1]
    · intro q hq p hfp hana
      rcases List.mem_cons.mp hq with rfl | hqrest
      · -- q = pid, processed by the head step
        have hel : syncEligible acc.items q = true := by
          unfold syncEligible
          rw [hfp]
          simpa using hana
        rcases syncOne_spec metaW tagW sm stg now acc q with
          ⟨helF, _⟩ | ⟨p', hf', _, ⟨hok, heq⟩ | ⟨hok, heq⟩⟩
        · rw [hel] at helF; cases helF
        · have hpp : p = p' := by
            rw [hfp] at hf'
            exact (Option.some.injEq _ _).mp hf'
          subst hpp
          constructor
          · intro _
            show (syncLoop metaW tagW sm stg now rest acc1).items.find? _ = _
            rw [ihf q hpidrest, hacc1, heq]
            show (updateProduct q
              (fun r => { r with status := ItemStatus.SYNCED, syncedAt := some now })
              acc.items).find? _ = _
            rw [find?_updateProduct_eq q
              (fun r => { r with status := ItemStatus.SYNCED, syncedAt := some now })
              (fun r => rfl), hfp]
            rfl
          · intro hbad
            rw [hok] at hbad; cases hbad
        · constructor
          · intro hgood
            rw [hok] at hgood; cases hgood
          · intro _
            have hpp : p = p' := by
              rw [hfp] at hf'
              exact (Option.some.injEq _ _).mp hf'
            subst hpp
            show (syncLoop metaW tagW sm stg now rest acc1).items.find? _ = _
            rw [ihf q hpidrest, hacc1, heq]
            show (updateProduct q
              (fun r => { r with error := some (syncFailMsg metaW tagW sm stg p q) })
              acc.items).find? _ = _
            rw [find?_updateProduct_eq q
              (fun r => { r with error := some (syncFailMsg metaW tagW sm stg p q) })
              (fun r => rfl), hfp]
            rfl
      · -- q ∈ rest, processed later; transfer hypotheses across the head step
        have hqne : q ≠ pid := fun hc => hpidrest (hc ▸ hqrest)
        have hfq := hframe q hqne
        have hok_tr := (hpredcongr q hqrest).2
        have hres := ihp q hqrest p (by rw [hfq]; exact hfp) hana
        constructor
        · intro hgood
          exact (hres.1 (by rw [hok_tr]; exact hgood) : _)
        · intro hbad
          exact (hres.2 (by rw [hok_tr]; exact hbad) : _)

/-- C5: for a duplicate-free non-empty selection, the sync action processes
every selected Item independently and never aborts early: the returned
`synced` / `errors` counts are exactly the numbers of eligible Items all of
whose selected field-group writes succeeded (resp. at least one failed), and
each selected ANALYZED Item either is set to SYNCED with `syncedAt` stamped,
or keeps its ANALYZED status and all other fields with the concatenated
failure reasons recorded in `error`. -/
theorem sync_batch_partial_failure (metaW tagW : String → WriteResult)
    (sm stg : Bool) (now : Nat) (items : List Product) (ids : List String)
    (hnd : ids.Nodup) (hne : ids ≠ [])
    (pid : String) (hpid : pid ∈ ids) (p : Product)
    (hfind : items.find? (fun r => r.id == pid) = some p)
    (hana : p.status = ItemStatus.ANALYZED) :
    (syncSelectedProducts metaW tagW ids sm stg now items).1.synced =
      (ids.filter (fun q => syncEligible items q &&
        syncWritesOk metaW tagW sm stg items q)).length ∧
    (syncSelectedProducts metaW tagW ids sm stg now items).1.errors =
      (ids.filter (fun q => syncEligible items q &&
        !(syncWritesOk metaW tagW sm stg items q))).length ∧
    (syncWritesOk metaW tagW sm stg items pid = true →
      (syncSelectedProducts metaW tagW ids sm stg now items).2.1.find?
        (fun r => r.id == pid) =
        some { p with status := .SYNCED, syncedAt := some now }) ∧
    (syncWritesOk metaW tagW sm stg items pid = false →
      (syncSelectedProducts metaW tagW ids sm stg now items).2.1.find?
        (fun r => r.id == pid) =
        some { p with error := some (syncFailMsg metaW tagW sm stg p pid) }) := by
  have hemp : ids.isEmpty = false := by
    cases ids with
    | nil => exact absurd rfl hne
    | cons a l => rfl
  have hred : syncSelectedProducts metaW tagW ids sm stg now items =
      ({ success := true
         synced := (syncLoop metaW tagW sm stg now ids
           { synced := 0, errors := 0, errorMessages := [], writeCalls := [],
             items := items }).synced
         errors := (syncLoop metaW tagW sm stg now ids
           { synced := 0, errors := 0, errorMessages := [], writeCalls := [],
             items := items }).errors
         errorDetails := (syncLoop metaW tagW sm stg now ids
           { synced := 0, errors := 0, errorMessages := [], writeCalls := [],
             items := items }).errorMessages },
       (syncLoop metaW tagW sm stg now ids
         { synced := 0, errors := 0, errorMessages := [], writeCalls := [],
           items := items }).items,
       (syncLoop metaW tagW sm stg now ids
         { synced := 0, errors := 0, errorMessages := [], writeCalls := [],
           items := items }).writeCalls) := by
    unfold syncSelectedProducts
    rw [hemp]
    rfl
  obtain ⟨hs, he, hfr, hp2⟩ := syncLoop_spec metaW tagW sm stg now ids
    { synced := 0, errors := 0, errorMessages := [], writeCalls := [],
      items := items } hnd
  have hp3 := hp2 pid hpid p hfind hana
  refine ⟨?_, ?_, ?_, ?_⟩
  · rw [hred]
    show (syncLoop metaW tagW sm stg now ids
      { synced := 0, errors := 0, errorMessages := [], writeCalls := [],
        items := items }).synced = _
    rw [hs]
    exact Nat.zero_add _
  · rw [hred]
    show (syncLoop metaW tagW sm stg now ids
      { synced := 0, errors := 0, errorMessages := [], writeCalls := [],
        items := items }).errors = _
    rw [he]
    exact Nat.zero_add _
  · intro hok
    rw [hred]
    show (syncLoop metaW tagW sm stg now ids
      { synced := 0, errors := 0, errorMessages := [], writeCalls := [],
        items := items }).items.find? (fun r => r.id == pid) = _
    exact hp3.1 hok
  · intro hbad
    rw [hred]
    show (syncLoop metaW tagW sm stg now ids
      { synced := 0, errors := 0, errorMessages := [], writeCalls := [],
        items := items }).items.find? (fun r => r.id == pid) = _
    exact hp3.2 hbad

/-- An ANALYZED row with stored suggestions, used by concrete batches. -/
def batchItem (n : String) : Product :=
  { id := n, jobId := "job1", title := "Item " ++ n,
    imageUrl := "https://cdn.example/" ++ n ++ ".jpg", currentCategory := none,
    currentTags := "", status := .ANALYZED,
    suggestedMetafields := some [("color", "Blue")],
    suggestedTags := some ["Blue"], syncedAt := none, error := none }

/-- Five ANALYZED rows. -/
def batchItems : List Product :=
  [batchItem "p1", batchItem "p2", batchItem "p3", batchItem "p4", batchItem "p5"]

/-- A tag-write oracle failing exactly for rows p4 and p5. -/
def failingTagWrite : String → WriteResult := fun pid =>
  if pid = "p4" ∨ pid = "p5" then { success := false, error := some "tag write failed" }
  else { success := true, error := none }

/-- Witness for C5 on the 2-of-5 scenario (p4's and p5's tag writes fail):
counts and the per-item outcome for p4. -/
theorem sync_batch_partial_failure_witness :
    (syncSelectedProducts okWrite failingTagWrite ["p1", "p2", "p3", "p4", "p5"]
      true true 7 batchItems).1.synced =
      (["p1", "p2", "p3", "p4", "p5"].filter (fun q => syncEligible batchItems q &&
        syncWritesOk okWrite failingTagWrite true true batchItems q)).length ∧
    (syncSelectedProducts okWrite failingTagWrite ["p1", "p2", "p3", "p4", "p5"]
      true true 7 batchItems).1.errors =
      (["p1", "p2", "p3", "p4", "p5"].filter (fun q => syncEligible batchItems q &&
        !(syncWritesOk okWrite failingTagWrite true true batchItems q))).length ∧
    (syncWritesOk okWrite failingTagWrite true true batchItems "p4" = true →
      (syncSelectedProducts okWrite failingTagWrite ["p1", "p2", "p3", "p4", "p5"]
        true true 7 batchItems).2.1.find? (fun r => r.id == "p4") =
        some { batchItem "p4" with status := .SYNCED, syncedAt := some 7 }) ∧
    (syncWritesOk okWrite failingTagWrite true true batchItems "p4" = false →
      (syncSelectedProducts okWrite failingTagWrite ["p1", "p2", "p3", "p4", "p5"]
        true true 7 batchItems).2.1.find? (fun r => r.id == "p4") =
        some { batchItem "p4" with
          error := some (syncFailMsg okWrite failingTagWrite true true
            (batchItem "p4") "p4") }) :=
  sync_batch_partial_failure okWrite failingTagWrite true true 7 batchItems
    ["p1", "p2", "p3", "p4", "p5"] (by decide) (by decide) "p4" (by decide)
    (batchItem "p4") (by decide) (by decide)

theorem pidCalls_fst (sm stg : Bool) (p : Product) (pid : String)
    (x : String × FieldGroup) (h : x ∈ pidCalls sm stg p pid) : x.1 = pid := by
  unfold pidCalls at h
  rcases List.mem_append.mp h with h1 | h1
  · split_ifs at h1
    · rw [List.mem_singleton.mp h1]
    · simp at h1
  · split_ifs at h1
    · rw [List.mem_singleton.mp h1]
    · simp at h1

/-- If the row found for `pid` has no selected non-null suggestion, no
external write for `pid` is ever logged by the sync loop. -/
theorem syncLoop_no_calls_for (metaW tagW : String → WriteResult)
    (sm stg : Bool) (now : Nat) :
    ∀ (ids : List String) (acc : SyncAcc) (pid : String),
    (∀ g, (pid, g) ∉ acc.writeCalls) →
    (∀ p', acc.items.find? (fun r => r.id == pid) = some p' →
      (sm && p'.suggestedMetafields.isSome) = false ∧
      (stg && p'.suggestedTags.isSome) = false) →
    ∀ g, (pid, g) ∉ (syncLoop metaW tagW sm stg now ids acc).writeCalls := by
  intro ids
  induction ids with
  | nil => exact fun acc pid hc hg g => hc g
  | cons pid' rest ih =>
    intro acc pid hc hg g
    show (pid, g) ∉ (syncLoop metaW tagW sm stg now rest
      (syncOne metaW tagW sm stg now acc pid')).writeCalls
    apply ih
    · intro g'
      rcases syncOne_spec metaW tagW sm stg now acc pid' with
        ⟨_, heq⟩ | ⟨p', hf', _, ⟨_, heq⟩ | ⟨_, heq⟩⟩ <;> rw [heq]
      · exact hc g'
      all_goals
        intro hmem
        rcases List.mem_append.mp hmem with hmem1 | hmem2
        · exact hc g' hmem1
        · by_cases hpp : pid' = pid
          · subst hpp
            obtain ⟨hm, ht⟩ := hg p' hf'
            simp [pidCalls, hm, ht] at hmem2
          · exact hpp ((pidCalls_fst sm stg p' pid' (pid, g') hmem2).symm :
              pid' = (pid, g').1)
    · intro p'' hf''
      by_cases hpp : pid' = pid
      · subst hpp
        rcases syncOne_items_cases metaW tagW sm stg now acc pid' with
          hsame | ⟨pp, hfp, _, hupd | ⟨msg, hupd⟩⟩
        · rw [hsame] at hf''
          exact hg p'' hf''
        · rw [hupd, find?_updateProduct_eq pid'
            (fun r => { r with status := ItemStatus.SYNCED, syncedAt := some now })
            (fun r => rfl), hfp] at hf''
          have hpq : ({ pp with status := ItemStatus.SYNCED, syncedAt := some now } :
              Product) = p'' := by
            exact (Option.some.injEq _ _).mp hf''
          obtain ⟨hm, ht⟩ := hg pp hfp
          rw [← hpq]
          exact ⟨hm, ht⟩
        · rw [hupd, find?_updateProduct_eq pid'
            (fun r => { r with error := some msg }) (fun r => rfl), hfp] at hf''
          have hpq : ({ pp with error := some msg } : Product) = p'' := by
            exact (Option.some.injEq _ _).mp hf''
          obtain ⟨hm, ht⟩ := hg pp hfp
          rw [← hpq]
          exact ⟨hm, ht⟩
      · have hfr : (syncOne metaW tagW sm stg now acc pid').items.find?
            (fun r => r.id == pid) = acc.items.find? (fun r => r.id == pid) := by
          rcases syncOne_items_cases metaW tagW sm stg now acc pid' with
            hsame | ⟨pp, _, _, hupd | ⟨msg, hupd⟩⟩
          · rw [hsame]
          · rw [hupd, find?_updateProduct_ne pid' pid (fun hcc => hpp hcc.symm)
              (fun r => { r with status := ItemStatus.SYNCED, syncedAt := some now })
              (fun r => rfl)]
          · rw [hupd, find?_updateProduct_ne pid' pid (fun hcc => hpp hcc.symm)
              (fun r => { r with error := some msg }) (fun r => rfl)]
        rw [hfr] at hf''
        exact hg p'' hf''

/-- C10: if a sync request selects no field groups, or the selected groups
have null stored suggestions on an ANALYZED Item, the sync action still sets
that Item to SYNCED and stamps `syncedAt`, and performs no external catalog
write for it. -/
theorem sync_no_writes_still_synced (metaW tagW : String → WriteResult)
    (sm stg : Bool) (now : Nat) (items : List Product) (ids : List String)
    (hnd : ids.Nodup) (pid : String) (hpid : pid ∈ ids) (p : Product)
    (hfind : items.find? (fun r => r.id == pid) = some p)
    (hana : p.status = ItemStatus.ANALYZED)
    (hnosel : (sm = false ∧ stg = false) ∨
      ((sm = true → p.suggestedMetafields = none) ∧
       (stg = true → p.suggestedTags = none))) :
    (syncSelectedProducts metaW tagW ids sm stg now items).2.1.find?
      (fun r => r.id == pid) =
      some { p with status := .SYNCED, syncedAt := some now } ∧
    (∀ g : FieldGroup,
      (pid, g) ∉ (syncSelectedProducts metaW tagW ids sm stg now items).2.2) := by
  have hm : (sm && p.suggestedMetafields.isSome) = false := by
    rcases hnosel with ⟨h1, _⟩ | ⟨h1, _⟩
    · rw [h1]; rfl
    · cases hsm : sm with
      | false => rfl
      | true => rw [h1 hsm]; rfl
  have ht : (stg && p.suggestedTags.isSome) = false := by
    rcases hnosel with ⟨_, h1⟩ | ⟨_, h1⟩
    · rw [h1]; rfl
    · cases hstg : stg with
      | false => rfl
      | true => rw [h1 hstg]; rfl
  have hok : syncWritesOk metaW tagW sm stg items pid = true := by
    simp only [syncWritesOk, hfind]
    rw [hm, ht]
    rfl
  have hne : ids ≠ [] := List.ne_nil_of_mem hpid
  have hemp : ids.isEmpty = false := by
    cases ids with
    | nil => exact absurd rfl hne
    | cons a l => rfl
  have hred2 : (syncSelectedProducts metaW tagW ids sm stg now items).2 =
      ((syncLoop metaW tagW sm stg now ids
        { synced := 0, errors := 0, errorMessages := [], writeCalls := [],
          items := items }).items,
       (syncLoop metaW tagW sm stg now ids
        { synced := 0, errors := 0, errorMessages := [], writeCalls := [],
          items := items }).writeCalls) := by
    unfold syncSelectedProducts
    rw [hemp]
    rfl
  constructor
  · obtain ⟨_, _, _, hp2⟩ := syncLoop_spec metaW tagW sm stg now ids
      { synced := 0, errors := 0, errorMessages := [], writeCalls := [],
        items := items } hnd
    have hconc := (hp2 pid hpid p hfind hana).1 hok
    rw [hred2]
    exact hconc
  · intro g
    rw [hred2]
    exact syncLoop_no_calls_for metaW tagW sm stg now ids
      { synced := 0, errors := 0, errorMessages := [], writeCalls := [],
        items := items } pid (fun g' h => (List.not_mem_nil _) h)
      (fun p' hf' => by
        rw [hfind] at hf'
        have : p = p' := (Option.some.injEq _ _).mp hf'
        rw [← this]
        exact ⟨hm, ht⟩) g

/-- An ANALYZED row with no stored suggestions. -/
def bareItem : Product :=
  { id := "p9", jobId := "job1", title := "Bare", imageUrl := "img",
    currentCategory := none, currentTags := "", status := .ANALYZED,
    suggestedMetafields := none, suggestedTags := none, syncedAt := none,
    error := none }

/-- Witness for C10: syncing a batch containing an ANALYZED row with null
suggestions for both selected groups stamps it SYNCED at the given time and
performs no write for it. -/
theorem sync_no_writes_still_synced_witness :
    (syncSelectedProducts okWrite okWrite ["p9"] true true 5 [bareItem]).2.1.find?
      (fun r => r.id == "p9") =
      some { bareItem with status := .SYNCED, syncedAt := some 5 } ∧
    (∀ g : FieldGroup,
      ("p9", g) ∉ (syncSelectedProducts okWrite okWrite ["p9"] true true 5
        [bareItem]).2.2) :=
  sync_no_writes_still_synced okWrite okWrite true true 5 [bareItem] ["p9"]
    (by decide) "p9" (by decide) bareItem (by decide) (by decide)
    (Or.inr ⟨fun _ => rfl, fun _ => rfl⟩)

/-! ## Dashboard start-scan action (`app/routes/app._index.tsx`)

The action fetches products, checks admission with the boolean
`hasAvailableCredits`, then persists a Job row, persists the Item rows with
`createMany`, enqueues the analysis tasks, and consumes credits — four
separate persistence steps with no wrapping transaction. -/

/-- One product as fetched from the catalog for scanning. -/
structure ScanProduct where
  id : String
  title : String
  imageUrl : String
  category : Option String
  tags : List String
  deriving DecidableEq, Repr

/-- A persisted Job row of the dashboard's job table. -/
structure DBJob where
  id : String
  shop : String
  status : JobStatus
  totalItems : Nat
  processed : Nat
  deriving DecidableEq, Repr

/-- The persisted state the start-scan action touches. -/
structure DBState where
  jobs : List DBJob
  products : List Product
  settings : BasicSettings
  queue : List String
  deriving DecidableEq, Repr

/-- The Item row created for one fetched product
(`status := "PENDING"`, current tags joined with `", "`). -/
def newProductRow (jobId : String) (p : ScanProduct) : Product :=
  { id := p.id, jobId := jobId, title := p.title, imageUrl := p.imageUrl,
    currentCategory := p.category,
    currentTags := String.intercalate ", " p.tags, status := .PENDING,
    suggestedMetafields := none, suggestedTags := none, syncedAt := none,
    error := none }

/-- The four persistence steps of the start-scan action, in program order. -/
inductive ScanStep
  | createJob
  | createProducts
  | enqueueTasks
  | consumeCredits
  deriving DecidableEq, Repr

def startScanSteps : List ScanStep :=
  [.createJob, .createProducts, .enqueueTasks, .consumeCredits]

/-- Apply one persistence step of the start-scan action. -/
def applyScanStep (shop jobId : String) (prods : List ScanProduct)
    (db : DBState) : ScanStep → DBState
  | .createJob =>
      { db with jobs := db.jobs ++
          [{ id := jobId, shop := shop, status := .QUEUED,
             totalItems := prods.length, processed := 0 }] }
  | .createProducts =>
      { db with products := db.products ++ prods.map (newProductRow jobId) }
  | .enqueueTasks =>
      { db with queue := db.queue ++ prods.map (fun p => taskIdFor jobId p.id) }
  | .consumeCredits =>
      { db with settings := (useCreditsBasic db.settings (prods.length : Int)).2 }

/-- The state reached when the action's persistence sequence stops after `k`
steps (a later step's write failing leaves exactly this state behind). -/
def startScanPartial (shop jobId : String) (prods : List ScanProduct)
    (db : DBState) (k : Nat) : DBState :=
  (startScanSteps.take k).foldl (applyScanStep shop jobId prods) db

/-- Outcome of the start-scan action. -/
inductive ScanOutcome
  | errorNoProducts
  | denied
  | started (jobId : String)
  deriving DecidableEq, Repr

/-- The `action === "start-scan"` handler: no products → error; admission
check fails → denial returned synchronously with no persistence; otherwise
run the four persistence steps. -/
def startScanAction (shop jobId : String) (prods : List ScanProduct)
    (db : DBState) : ScanOutcome × DBState :=
  if prods.length = 0 then
    (.errorNoProducts, db)
  else if ¬ (hasAvailableCreditsBasic db.settings (prods.length : Int) = true) then
    (.denied, db)
  else
    (.started jobId, startScanSteps.foldl (applyScanStep shop jobId prods) db)

/-- Every persisted Job has all of its Item rows. -/
def JobsHaveAllItems (db : DBState) : Prop :=
  ∀ j ∈ db.jobs, (db.products.filter (fun p => p.jobId == j.id)).length = j.totalItems

/-- Every persisted Item row has its Job. -/
def ItemsHaveJob (db : DBState) : Prop :=
  ∀ p ∈ db.products, ∃ j ∈ db.jobs, j.id = p.jobId

/-- The atomicity property asserted by the specification. -/
def NoPartialCreation (db : DBState) : Prop :=
  JobsHaveAllItems db ∧ ItemsHaveJob db

instance (db : DBState) : Decidable (NoPartialCreation db) := by
  unfold NoPartialCreation JobsHaveAllItems ItemsHaveJob
  exact inferInstance

/-- Empty persisted state with 0/50 credits. -/
def emptyDb : DBState :=
  { jobs := [], products := [], settings := { creditsUsed := 0, creditLimit := 50 },
    queue := [] }

/-- Two fetched products used by the C7 counterexample. -/
def twoProds : List ScanProduct :=
  [ { id := "gid://shopify/Product/1", title := "Shirt",
      imageUrl := "https://cdn.example/1.jpg", category := none, tags := [] },
    { id := "gid://shopify/Product/2", title := "Hat",
      imageUrl := "https://cdn.example/2.jpg", category := none, tags := [] } ]

/-- C7 counterexample: admission passes and creation begins, but the Job row
and the Item rows are two separate writes; the state after the first write
(reached whenever `createMany` fails) holds a Job with `totalItems = 2` and
none of its Items — creation is not a single atomic unit. -/
theorem createJob_not_atomic_counterexample :
    hasAvailableCreditsBasic emptyDb.settings 2 = true ∧
    NoPartialCreation emptyDb ∧
    ¬ NoPartialCreation (startScanPartial "shop1" "job1" twoProds emptyDb 1) := by
  refine ⟨rfl, by decide, by decide⟩

/-- C7 amended: the start-scan action persists the Job first and its Items
second, in separate writes with no transaction; if the Item write fails, a
Job without its Items is observable (the counterexample).  What does hold:
Items are never observable without their Job at any prefix of the sequence,
and when all steps complete the new Job has exactly its `totalItems` Items
and the invariant is restored. -/
theorem createJob_two_phase (shop jobId : String) (prods : List ScanProduct)
    (db : DBState)
    (hwf : NoPartialCreation db)
    (hfresh : ∀ j ∈ db.jobs, j.id ≠ jobId)
    (hnoref : ∀ p ∈ db.products, p.jobId ≠ jobId) (k : Nat) :
    NoPartialCreation (startScanPartial shop jobId prods db 4) ∧
    ItemsHaveJob (startScanPartial shop jobId prods db k) := by
  obtain ⟨hall, hioj⟩ := hwf
  have hjob1 : ∀ m, 1 ≤ m → (startScanPartial shop jobId prods db m).jobs =
      db.jobs ++ [{ id := jobId, shop := shop, status := .QUEUED,
                    totalItems := prods.length, processed := 0 }] := by
    intro m hm
    match m, hm with
    | 1, _ => rfl
    | 2, _ => rfl
    | 3, _ => rfl
    | n + 4, _ =>
      have heq : startScanSteps.take (n + 4) = startScanSteps := by
        apply List.take_of_length_le
        simp [startScanSteps]
      unfold startScanPartial
      rw [heq]
      rfl
  have hprod01 : ∀ m, m ≤ 1 → (startScanPartial shop jobId prods db m).products =
      db.products := by
    intro m hm
    match m, hm with
    | 0, _ => rfl
    | 1, _ => rfl
  have hprod2 : ∀ m, 2 ≤ m → (startScanPartial shop jobId prods db m).products =
      db.products ++ prods.map (newProductRow jobId) := by
    intro m hm
    match m, hm with
    | 2, _ => rfl
    | 3, _ => rfl
    | n + 4, _ =>
      have heq : startScanSteps.take (n + 4) = startScanSteps := by
        apply List.take_of_length_le
        simp [startScanSteps]
      unfold startScanPartial
      rw [heq]
      rfl
  constructor
  · -- full run restores the invariant
    constructor
    · intro j hj
      rw [hjob1 4 (by omega)] at hj
      rw [hprod2 4 (by omega)]
      rcases List.mem_append.mp hj with hold | hnew
      · -- an old job: the new rows reference jobId ≠ j.id
        rw [List.filter_append]
        have hnewrows : (prods.map (newProductRow jobId)).filter
            (fun p => p.jobId == j.id) = [] := by
          apply List.filter_eq_nil.mpr
          intro a ha
          rcases List.mem_map.mp ha with ⟨q, _, rfl⟩
          show ¬ ((newProductRow jobId q).jobId == j.id) = true
          have : (newProductRow jobId q).jobId = jobId := rfl
          rw [this]
          exact fun hb => (hfresh j hold) (eq_of_beq hb).symm
        rw [hnewrows]
        simp only [List.length_append, List.length_nil, Nat.add_zero]
        exact hall j hold
      · -- the new job: old rows do not reference it, new rows all do
        have hj2 : j = { id := jobId, shop := shop, status := .QUEUED,
                         totalItems := prods.length, processed := 0 } :=
          List.mem_singleton.mp hnew
        subst hj2
        rw [List.filter_append]
        have hold0 : db.products.filter (fun p => p.jobId == jobId) = [] := by
          apply List.filter_eq_nil.mpr
          intro a ha
          show ¬ (a.jobId == jobId) = true
          exact fun hb => (hnoref a ha) (eq_of_beq hb)
        have hnewall : (prods.map (newProductRow jobId)).filter
            (fun p => p.jobId == jobId) = prods.map (newProductRow jobId) := by
          apply List.filter_eq_self.mpr
          intro a ha
          rcases List.mem_map.mp ha with ⟨q, _, rfl⟩
          show ((newProductRow jobId q).jobId == jobId) = true
          exact beq_self_eq_true _
        rw [hold0, hnewall]
        simp
    · intro p hp
      rw [hprod2 4 (by omega)] at hp
      rw [hjob1 4 (by omega)]
      rcases List.mem_append.mp hp with hold | hnew
      · obtain ⟨j, hj, hjid⟩ := hioj p hold
        exact ⟨j, List.mem_append_left _ hj, hjid⟩
      · rcases List.mem_map.mp hnew with ⟨q, _, rfl⟩
        refine ⟨{ id := jobId, shop := shop, status := .QUEUED,
                  totalItems := prods.length, processed := 0 },
          List.mem_append_right _ (List.mem_singleton.mpr rfl), rfl⟩
  · -- orphan-freedom at every prefix
    match k with
    | 0 =>
      intro p hp
      obtain ⟨j, hj, hjid⟩ := hioj p hp
      exact ⟨j, hj, hjid⟩
    | 1 =>
      intro p hp
      rw [hprod01 1 (by omega)] at hp
      obtain ⟨j, hj, hjid⟩ := hioj p hp
      rw [hjob1 1 (by omega)]
      exact ⟨j, List.mem_append_left _ hj, hjid⟩
    | n + 2 =>
      intro p hp
      rw [hprod2 (n + 2) (by omega)] at hp
      rw [hjob1 (n + 2) (by omega)]
      rcases List.mem_append.mp hp with hold | hnew
      · obtain ⟨j, hj, hjid⟩ := hioj p hold
        exact ⟨j, List.mem_append_left _ hj, hjid⟩
      · rcases List.mem_map.mp hnew with ⟨q, _, rfl⟩
        exact ⟨_, List.mem_append_right _ (List.mem_singleton.mpr rfl), rfl⟩

/-- Witness for the amended C7 from the empty state: the full run restores
the invariant and the one-step prefix has no orphan Items. -/
theorem createJob_two_phase_witness :
    NoPartialCreation (startScanPartial "shop1" "job1" twoProds emptyDb 4) ∧
    ItemsHaveJob (startScanPartial "shop1" "job1" twoProds emptyDb 1) :=
  createJob_two_phase "shop1" "job1" twoProds emptyDb (by decide) (by decide)
    (by decide) 1

/-- The dashboard state of claim C8's scenario: `creditLimit = 50`,
`creditsUsed = 48`, nothing persisted. -/
def lowCreditDb : DBState :=
  { jobs := [], products := [],
    settings := { creditsUsed := 48, creditLimit := 50 }, queue := [] }

/-- Five fetched products. -/
def fiveProds : List ScanProduct :=
  [ { id := "gid://shopify/Product/1", title := "P1",
      imageUrl := "https://cdn.example/1.jpg", category := none, tags := [] },
    { id := "gid://shopify/Product/2", title := "P2",
      imageUrl := "https://cdn.example/2.jpg", category := none, tags := [] },
    { id := "gid://shopify/Product/3", title := "P3",
      imageUrl := "https://cdn.example/3.jpg", category := none, tags := [] },
    { id := "gid://shopify/Product/4", title := "P4",
      imageUrl := "https://cdn.example/4.jpg", category := none, tags := [] },
    { id := "gid://shopify/Product/5", title := "P5",
      imageUrl := "https://cdn.example/5.jpg", category := none, tags := [] } ]

/-- C8: a tenant with 48 of 50 credits used asking to scan 5 items on the
no-overage billing service is fully denied — the admission check returns
false, the action returns the denial synchronously, and the persisted state
is unchanged: zero Jobs and zero Items exist afterwards. -/
theorem scan_denied_low_credits :
    hasAvailableCreditsBasic lowCreditDb.settings ((fiveProds.length : Nat) : Int) = false ∧
    startScanAction "shop1" "job1" fiveProds lowCreditDb =
      (ScanOutcome.denied, lowCreditDb) ∧
    (startScanAction "shop1" "job1" fiveProds lowCreditDb).2.jobs = [] ∧
    (startScanAction "shop1" "job1" fiveProds lowCreditDb).2.products = [] := by
  refine ⟨by decide, by decide, by decide, by decide⟩
